import Mathlib

/-
Verification of the hierarchical popup-menu engine of this repository
(source: src/box-panel.ts, classes `MenuItem`, `Menu` and namespace
`Private`).

Shallow embedding conventions:
* `MenuItem` is translated field by field from the `MenuItem` class
  (default values are the source's field initializers).  The `args : any`
  payload is not interpreted by the core and is omitted.  The `submenu`
  field is a reference, modelled as an optional menu id.
* The visual node of an item (`HTMLElement`) is modelled by `ItemNode`,
  keeping exactly the two CSS-class markers the menu logic toggles:
  the active marker (`p-mod-active`) and the hidden marker
  (`p-mod-hidden`).
* A `Menu` instance is a `MenuState`; all menus live in a `World`, a
  total map from menu ids to states, because parent/child links cross
  instances.  JS reference updates become `Function.update`.
* The widget substrate (`./widget`, outside src/) is modelled from the
  spec at its interface boundary: `close()` delivers a close-request
  which runs `onCloseRequest`; `Widget.attach`/`Widget.detach` and
  clearing `parent` toggle the `attached`/`parentWidget` flags, and
  removing a menu from its parent widget also removes it from the
  document.  `setTimeout` handles are modelled as a `Nat` that is `0`
  when no timer is pending (starting a timer stores a nonzero token).
* DOM geometry (hit testing, `getBoundingClientRect`) is external;
  event handlers take the hit-test results as oracle parameters, and
  the positioning arithmetic of `Private.openRootMenu` is embedded as
  a pure function of the measured sizes.
-/

/-- The `MenuItemType` union of the source. -/
inductive MenuItemType where
  | normal
  | check
  | radio
  | submenu
  | separator
deriving DecidableEq, Repr

/-- The `MenuItem` data class.  Field defaults are the source's
initializers.  `submenu` holds the id of the referenced menu. -/
structure MenuItem where
  type : MenuItemType := MenuItemType.normal
  text : String := ""
  icon : String := ""
  shortcut : String := ""
  checked : Bool := false
  disabled : Bool := false
  hidden : Bool := false
  className : String := ""
  command : String := ""
  submenu : Option Nat := none
deriving DecidableEq, Repr

instance : Inhabited MenuItem := ⟨{}⟩

/-- A menu item's visual node, reduced to the two class markers the
menu logic reads or writes: `p-mod-active` and `p-mod-hidden`. -/
structure ItemNode where
  active : Bool := false
  hiddenMarked : Bool := false
deriving DecidableEq, Repr

instance : Inhabited ItemNode := ⟨{}⟩

/-- The private state of one `Menu` instance.  Field defaults are the
source's initializers; `attached`/`parentWidget` model the widget
substrate flags (`isAttached`, `parent !== null`). -/
structure MenuState where
  items : List MenuItem := []
  nodes : List ItemNode := []
  activeIndex : Int := -1
  parentMenu : Option Nat := none
  childMenu : Option Nat := none
  childIndex : Int := -1
  openTimerID : Nat := 0
  closeTimerID : Nat := 0
  attached : Bool := false
  parentWidget : Bool := false
deriving DecidableEq, Repr

instance : Inhabited MenuState := ⟨{}⟩

/-- The collection of all menu instances, indexed by id. -/
def World : Type := Nat → MenuState

/-- Observable notifications: the `triggered` signal (carrying the
item) and the `closed` signal, tagged with the emitting menu's id. -/
inductive Event where
  | triggered (menu : Nat) (item : MenuItem)
  | closed (menu : Nat)
deriving DecidableEq, Repr

/-- In-place update of one list element (`nodes.at(i)` mutation);
out-of-range indices leave the list unchanged. -/
def modifyAt : List α → Nat → (α → α) → List α
  | [], _, _ => []
  | a :: l, 0, f => f a :: l
  | a :: l, i + 1, f => a :: modifyAt l i f

/-- `Vector.insert` of the source: insert at position `i` (callers
clamp `i` into `[0, length]`). -/
def insertAt : List α → Nat → α → List α
  | l, 0, x => x :: l
  | [], _ + 1, x => [x]
  | a :: l, i + 1, x => a :: insertAt l i x

/-- `Vector.remove` of the source: delete position `i`; out-of-range
indices leave the list unchanged. -/
def eraseAt : List α → Nat → List α
  | [], _ => []
  | _ :: l, 0 => l
  | a :: l, i + 1 => a :: eraseAt l i

theorem modifyAt_length (l : List α) (i : Nat) (f : α → α) :
    (modifyAt l i f).length = l.length := by
  induction l generalizing i with
  | nil => rfl
  | cons a l ih =>
    cases i with
    | zero => rfl
    | succ i => simp [modifyAt, ih]

theorem insertAt_length (l : List α) (i : Nat) (x : α) :
    (insertAt l i x).length = l.length + 1 := by
  induction l generalizing i with
  | nil => cases i <;> rfl
  | cons a l ih =>
    cases i with
    | zero => rfl
    | succ i => simp [insertAt, ih]

theorem eraseAt_length (l : List α) (i : Nat) (h : i < l.length) :
    (eraseAt l i).length = l.length - 1 := by
  induction l generalizing i with
  | nil => simp at h
  | cons a l ih =>
    cases i with
    | zero => rfl
    | succ i =>
      simp only [List.length_cons, Nat.succ_lt_succ_iff] at h
      cases l with
      | nil => simp at h
      | cons b l => simp [eraseAt, ih _ h]

/-- `Private.isSelectable`: an item is selectable unless it is a
separator, disabled, or hidden. -/
def isSelectable (item : MenuItem) : Bool :=
  !(item.type == MenuItemType.separator || item.disabled || item.hidden)

/-- The coercion at the head of the `activeIndex` setter: out-of-range
values and indices of non-selectable items become `-1`. -/
def coerceIndex (m : MenuState) (value : Int) : Int :=
  if value < 0 ∨ (m.items.length : Int) ≤ value then -1
  else if value ≠ -1 ∧ isSelectable (m.items.getD value.toNat default) = false
  then -1
  else value

/-- The class-marker move of the `activeIndex` setter: remove the
active marker from the old node, add it to the new one. -/
def moveActiveMark (nodes : List ItemNode) (old new : Int) : List ItemNode :=
  let nodes1 :=
    if old ≠ -1 then
      modifyAt nodes old.toNat (fun nd => { nd with active := false })
    else nodes
  if new ≠ -1 then
    modifyAt nodes1 new.toNat (fun nd => { nd with active := true })
  else nodes1

/-- The `activeIndex` setter of `Menu`: coerce the value to `-1`
unless it designates a selectable in-range item, bail if unchanged,
otherwise move the active class marker between the item nodes. -/
def setActiveIndex (m : MenuState) (value : Int) : MenuState :=
  if m.activeIndex = coerceIndex m value then m
  else
    { m with activeIndex := coerceIndex m value,
             nodes := moveActiveMark m.nodes m.activeIndex (coerceIndex m value) }

/-- The `activeItem` getter: `null` when no selection, otherwise the
item at the active index. -/
def activeItemOf (m : MenuState) : Option MenuItem :=
  if m.activeIndex ≠ -1 then m.items.get? m.activeIndex.toNat else none

/-- The cyclic forward scan shared by `Private.activateNextSelectable`
and `Private.activateNextMnemonic`: visit `k = (i + j) % n` for
`i = 0, 1, ...` (`remaining` counts the iterations left) and return
the first index whose item satisfies `pred`. -/
def scanCyclic (items : List MenuItem) (pred : MenuItem → Bool) (j : Nat) :
    Nat → Nat → Option Nat
  | _, 0 => none
  | i, r + 1 =>
    if pred (items.getD ((i + j) % items.length) default) then
      some ((i + j) % items.length)
    else scanCyclic items pred j (i + 1) r

/-- The loop of `Private.activateFirstSelectable`; the second `Nat`
counts the iterations left (`for (i = 0; i < n; ++i)`). -/
def firstSelectableFrom (items : List MenuItem) : Nat → Nat → Option Nat
  | _, 0 => none
  | i, r + 1 =>
    if isSelectable (items.getD i default) then some i
    else firstSelectableFrom items (i + 1) r

/-- `Private.activateFirstSelectable`. -/
def activateFirstSelectable (m : MenuState) : MenuState :=
  match firstSelectableFrom m.items 0 m.items.length with
  | some i => setActiveIndex m (i : Int)
  | none => setActiveIndex m (-1)

/-- `Private.activateNextSelectable`: cyclic scan starting just after
the current selection. -/
def activateNextSelectable (m : MenuState) : MenuState :=
  match scanCyclic m.items isSelectable (m.activeIndex + 1).toNat 0
      m.items.length with
  | some k => setActiveIndex m (k : Int)
  | none => setActiveIndex m (-1)

/-- The backward cyclic scan of `Private.activatePrevSelectable`:
visit `k = (j - i + n) % n` for `i = 0, 1, ...`. -/
def scanCyclicBack (items : List MenuItem) (pred : MenuItem → Bool) (j : Int) :
    Nat → Nat → Option Nat
  | _, 0 => none
  | i, r + 1 =>
    if pred (items.getD ((j - i + items.length).toNat % items.length) default) then
      some ((j - i + items.length).toNat % items.length)
    else scanCyclicBack items pred j (i + 1) r

/-- The starting position of `Private.activatePrevSelectable`:
`ai <= 0 ? n - 1 : ai - 1`. -/
def prevStart (m : MenuState) : Int :=
  if m.activeIndex ≤ 0 then (m.items.length : Int) - 1 else m.activeIndex - 1

/-- `Private.activatePrevSelectable`. -/
def activatePrevSelectable (m : MenuState) : MenuState :=
  match scanCyclicBack m.items isSelectable (prevStart m) 0 m.items.length with
  | some k => setActiveIndex m (k : Int)
  | none => setActiveIndex m (-1)

/-- A JS word character, as matched by the regex class used in
`Private.activateNextMnemonic` (ASCII letters, digits, underscore). -/
def isWordChar (c : Char) : Bool :=
  c.isAlpha || c.isDigit || c == '_'

/-- The first match of the regex used by the mnemonic search: the
leftmost occurrence of a double ampersand followed by a word
character; returns the marked character.  Failing positions advance
by one character, as the regex engine does. -/
def firstMnemonicAux : Nat → List Char → Option Char
  | 0, _ => none
  | fuel + 1, l =>
    match l with
    | '&' :: '&' :: c :: rest =>
      if isWordChar c then some c else firstMnemonicAux fuel ('&' :: c :: rest)
    | _ :: rest => firstMnemonicAux fuel rest
    | [] => none

def firstMnemonic (l : List Char) : Option Char :=
  firstMnemonicAux l.length l

/-- The per-item test of `Private.activateNextMnemonic`: the item is
selectable and the first mnemonic marker of its label matches the
(upper-cased) typed character case-insensitively. -/
def mnemonicPred (c : Char) (item : MenuItem) : Bool :=
  isSelectable item &&
    (match firstMnemonic item.text.data with
     | some d => d.toUpper == c
     | none => false)

/-- `Private.activateNextMnemonic`: cyclic scan from just after the
current selection for the first selectable item whose first mnemonic
marker matches; no match clears the selection. -/
def activateNextMnemonic (m : MenuState) (ch : Char) : MenuState :=
  match scanCyclic m.items (mnemonicPred ch.toUpper) (m.activeIndex + 1).toNat
      0 m.items.length with
  | some k => setActiveIndex m (k : Int)
  | none => setActiveIndex m (-1)

/-- Add the hidden class marker to the node at index `k`
(`nodes.at(k).classList.add(HIDDEN_CLASS)`). -/
def markHidden (nodes : List ItemNode) (k : Nat) : List ItemNode :=
  modifyAt nodes k (fun nd => { nd with hiddenMarked := true })

/-- First loop of `Private.hideExtraSeparators`: mark the leading
separators, skipping hidden items, and return the loop's final `k1`;
the last `Nat` counts the iterations left (`items.length - k1`). -/
def hideLeading (items : List MenuItem) :
    List ItemNode → Nat → Nat → List ItemNode × Nat
  | nodes, k1, 0 => (nodes, k1)
  | nodes, k1, r + 1 =>
    if k1 < items.length then
      if (items.getD k1 default).hidden then hideLeading items nodes (k1 + 1) r
      else if (items.getD k1 default).type ≠ MenuItemType.separator then
        (nodes, k1)
      else hideLeading items (markHidden nodes k1) (k1 + 1) r
    else (nodes, k1)

/-- Second loop of `Private.hideExtraSeparators`: mark trailing
separators scanning downward; the argument is `k2 + 1` so that `0`
encodes the loop having run past index `0` (final `k2 = -1`). -/
def hideTrailingAux (items : List MenuItem) :
    List ItemNode → Nat → List ItemNode × Int
  | nodes, 0 => (nodes, -1)
  | nodes, k + 1 =>
    if (items.getD k default).hidden then hideTrailingAux items nodes k
    else if (items.getD k default).type ≠ MenuItemType.separator then
      (nodes, (k : Int))
    else hideTrailingAux items (markHidden nodes k) k

/-- Third loop of `Private.hideExtraSeparators`
(`while (++k1 < k2)`): collapse interior consecutive separators,
skipping hidden items when judging adjacency. -/
def hideInterior (items : List MenuItem) (k2 : Int) :
    List ItemNode → Nat → Bool → Nat → List ItemNode
  | nodes, _, _, 0 => nodes
  | nodes, k1, hide, r + 1 =>
    if ((k1 + 1 : Nat) : Int) < k2 then
      if (items.getD (k1 + 1) default).hidden then
        hideInterior items k2 nodes (k1 + 1) hide r
      else if (items.getD (k1 + 1) default).type ≠ MenuItemType.separator then
        hideInterior items k2 nodes (k1 + 1) false r
      else if hide then
        hideInterior items k2 (markHidden nodes (k1 + 1)) (k1 + 1) true r
      else hideInterior items k2 nodes (k1 + 1) true r
    else nodes

/-- `Private.hideExtraSeparators`. -/
def hideExtraSeparators (items : List MenuItem) (nodes : List ItemNode) :
    List ItemNode :=
  let r1 := hideLeading items nodes 0 items.length
  let r2 := hideTrailingAux items r1.1 items.length
  hideInterior items r2.2 r2.1 r1.2 false items.length

/-- `MenuItemRenderer.updateItemNode`, restricted to the modelled
class markers: the full class name is rebuilt from the item (so the
active marker is dropped and the hidden marker reflects the item's
hidden flag). -/
def updateItemNode (item : MenuItem) : ItemNode :=
  { active := false, hiddenMarked := item.hidden }

/-- The renderer pass of `Menu.onUpdateRequest`, one node per item. -/
def updateAllNodes (items : List MenuItem) (nodes : List ItemNode) :
    List ItemNode :=
  List.zipWith (fun it _ => updateItemNode it) items nodes ++
    nodes.drop items.length

/-- `Menu.onUpdateRequest`: refresh every item node, re-add the active
marker to the active node, then hide the extra separator nodes. -/
def onUpdateRequest (m : MenuState) : MenuState :=
  let nodes := updateAllNodes m.items m.nodes
  let nodes :=
    if m.activeIndex ≠ -1 then
      modifyAt nodes m.activeIndex.toNat (fun nd => { nd with active := true })
    else nodes
  { m with nodes := hideExtraSeparators m.items nodes }

/-- `_cancelOpenTimer` followed by `_cancelCloseTimer` on one menu. -/
def cancelTimersStep (m : MenuState) : MenuState :=
  { m with openTimerID := 0, closeTimerID := 0 }

/-- `_cancelOpenTimer` alone. -/
def cancelOpenTimerStep (m : MenuState) : MenuState :=
  { m with openTimerID := 0 }

/-- `_cancelCloseTimer` alone. -/
def cancelCloseTimerStep (m : MenuState) : MenuState :=
  { m with closeTimerID := 0 }

/-- `_startOpenTimer`: a no-op when a timer is already pending,
otherwise store a (nonzero) timer handle. -/
def startOpenTimer (m : MenuState) : MenuState :=
  if m.openTimerID = 0 then { m with openTimerID := 1 } else m

/-- `_startCloseTimer`. -/
def startCloseTimer (m : MenuState) : MenuState :=
  if m.closeTimerID = 0 then { m with closeTimerID := 1 } else m

/-- The symmetric unlink done when closing an open child: reset this
menu's child state and clear the child's parent reference (the first
three statements of the child branch of `onCloseRequest`, identical to
the body of `_closeChildMenu`). -/
def sever (w : World) (id c : Nat) : World :=
  let w1 := Function.update w id
    { w id with childIndex := -1, childMenu := none }
  Function.update w1 c { w1 c with parentMenu := none }

/-- The parent branch of `onCloseRequest`: clear this menu's parent
reference, then cancel the parent's timers and reset its child state. -/
def unlinkFromParent (w : World) (id p : Nat) : World :=
  let w1 := Function.update w id { w id with parentMenu := none }
  Function.update w1 p
    { w1 p with openTimerID := 0, closeTimerID := 0,
                childIndex := -1, childMenu := none }

/-- The opening statements of `onCloseRequest`: cancel both timers and
reset the active index through the setter. -/
def closeStep0 (w : World) (id : Nat) : World :=
  Function.update w id (setActiveIndex (cancelTimersStep (w id)) (-1))

/-- The parent branch of `onCloseRequest`, dispatching on whether the
menu has a parent. -/
def closeStepParent (w : World) (id : Nat) : World :=
  match (w id).parentMenu with
  | none => w
  | some p => unlinkFromParent w id p

/-- The closing statements of `onCloseRequest`: if the menu is mounted
in a parent widget, unparent it (which also removes it from the
document) and emit `closed`; else if it is attached, detach it and
emit `closed`; otherwise do nothing. -/
def closeStepDetach (w : World) (id : Nat) (evs : List Event) :
    World × List Event :=
  if (w id).parentWidget then
    (Function.update w id { w id with parentWidget := false, attached := false },
     evs ++ [Event.closed id])
  else if (w id).attached then
    (Function.update w id { w id with attached := false },
     evs ++ [Event.closed id])
  else (w, evs)

/-- `Menu.close()` ≅ `onCloseRequest` (the widget substrate delivers a
close request synchronously, modelled from the spec).  `fuel` bounds
the recursive teardown of the child chain; a fuel of `0` does
nothing. -/
def closeMenu : Nat → World → Nat → World × List Event
  | 0, w, _ => (w, [])
  | fuel + 1, w, id =>
    let w1 := closeStep0 w id
    let r :=
      match (w1 id).childMenu with
      | none => (w1, ([] : List Event))
      | some c => closeMenu fuel (sever w1 id c) c
    closeStepDetach (closeStepParent r.1 id) id r.2

/-- `_closeChildMenu`: bail if no child is open, otherwise unlink both
sides and close the child. -/
def closeChildMenu (fuel : Nat) (w : World) (id : Nat) : World × List Event :=
  match (w id).childMenu with
  | none => (w, [])
  | some c => closeMenu fuel (sever w id c) c

theorem closeMenu_succ (fuel : Nat) (w : World) (id : Nat) :
    closeMenu (fuel + 1) w id =
      closeStepDetach
        (closeStepParent (closeChildMenu fuel (closeStep0 w id) id).1 id) id
        (closeChildMenu fuel (closeStep0 w id) id).2 := rfl

/-- `Private.openSubmenu`, restricted to its state effects: render the
child once (update request) and attach it.  The geometry written to
the child's style is external to the state model. -/
def openSubmenuW (w : World) (sm : Nat) : World :=
  let w1 := Function.update w sm (onUpdateRequest (w sm))
  Function.update w1 sm { w1 sm with attached := true }

/-- The guard of `_openChildMenu`: the submenu reference of the active
item, provided that item exists and is of submenu type. -/
def targetSubmenu (m : MenuState) : Option Nat :=
  match activeItemOf m with
  | none => none
  | some item =>
    if item.type = MenuItemType.submenu then item.submenu else none

/-- `_openChildMenu`: with no valid submenu target, just close the
child; if the target is already the open child, do nothing; otherwise
close the current child, link both sides of the parent/child pair
(reading `activeIndex` after the close, as the source does) and open
the submenu. -/
def openChildMenu (fuel : Nat) (w : World) (id : Nat) : World × List Event :=
  match targetSubmenu (w id) with
  | none => closeChildMenu fuel w id
  | some sm =>
    if (w id).childMenu = some sm then (w, [])
    else
      let r := closeChildMenu fuel w id
      let w2 := Function.update r.1 id
        { r.1 id with childMenu := some sm, childIndex := (r.1 id).activeIndex }
      let w3 := Function.update w2 sm { w2 sm with parentMenu := some id }
      (openSubmenuW w3 sm, r.2)

/-- The emission loop of `_triggerItem`: emit `triggered` on this menu
and then on every ancestor, returning the last menu reached (the
root). -/
def triggerWalk : Nat → World → Nat → MenuItem → Nat × List Event
  | 0, _, id, item => (id, [Event.triggered id item])
  | fuel + 1, w, id, item =>
    match (w id).parentMenu with
    | none => (id, [Event.triggered id item])
    | some p =>
      let r := triggerWalk fuel w p item
      (r.1, Event.triggered id item :: r.2)

/-- `_triggerItem`: emit `triggered` up the chain, then close the
whole hierarchy from the root. -/
def triggerItem (fuel : Nat) (w : World) (id : Nat) (item : MenuItem) :
    World × List Event :=
  let t := triggerWalk fuel w id item
  let r := closeMenu fuel w t.1
  (r.1, t.2 ++ r.2)

/-- `_startOpenTimer`'s callback body (runs only while the timer is
still pending; a cancelled timer never fires). -/
def fireOpenTimer (fuel : Nat) (w : World) (id : Nat) : World × List Event :=
  if (w id).openTimerID ≠ 0 then
    openChildMenu fuel (Function.update w id (cancelOpenTimerStep (w id))) id
  else (w, [])

/-- `_startCloseTimer`'s callback body. -/
def fireCloseTimer (fuel : Nat) (w : World) (id : Nat) : World × List Event :=
  if (w id).closeTimerID ≠ 0 then
    closeChildMenu fuel (Function.update w id (cancelCloseTimerStep (w id))) id
  else (w, [])

/-- The guard shared by the collection mutators: `if (this.isAttached)
this.close()`. -/
def closeIfAttached (fuel : Nat) (w : World) (id : Nat) :
    World × List Event :=
  if (w id).attached then closeMenu fuel w id else (w, [])

/-- `Menu.insertItem`: close if attached, reset the selection (direct
field write in the source), clamp the index, then insert the item and
a fresh node at the same position. -/
def insertItemW (fuel : Nat) (w : World) (id : Nat) (index : Int)
    (item : MenuItem) : World × List Event :=
  let r := closeIfAttached fuel w id
  let m := r.1 id
  let i : Nat := (max 0 (min index (m.items.length : Int))).toNat
  let m1 := { m with activeIndex := -1,
                     items := insertAt m.items i item,
                     nodes := insertAt m.nodes i ({} : ItemNode) }
  (Function.update r.1 id m1, r.2)

/-- `Menu.removeItem`: bail when out of range, else close if attached,
reset the selection, and remove the item/node pair. -/
def removeItemW (fuel : Nat) (w : World) (id : Nat) (index : Int) :
    World × List Event :=
  if index < 0 ∨ ((w id).items.length : Int) ≤ index then (w, [])
  else
    let r := closeIfAttached fuel w id
    let m := r.1 id
    let m1 := { m with activeIndex := -1,
                       items := eraseAt m.items index.toNat,
                       nodes := eraseAt m.nodes index.toNat }
    (Function.update r.1 id m1, r.2)

/-- `Menu.clearItems`. -/
def clearItemsW (fuel : Nat) (w : World) (id : Nat) : World × List Event :=
  let r := closeIfAttached fuel w id
  let m := r.1 id
  let m1 := { m with activeIndex := -1, items := [], nodes := [] }
  (Function.update r.1 id m1, r.2)

/-- `Menu.open` restricted to its state effects: a no-op when already
attached, otherwise render once and attach (the root placement
arithmetic is the pure function `openRootPosition` below). -/
def openMenuW (w : World) (id : Nat) : World :=
  if (w id).attached then w
  else
    let w1 := Function.update w id (onUpdateRequest (w id))
    Function.update w1 id { w1 id with attached := true }

/-- `_evtMouseUp`.  `button` is the released mouse button and `hit`
is the oracle result of `findIndex(nodes, hitTest)` (`-1` when the
release is over no item node). -/
def evtMouseUp (fuel : Nat) (w : World) (id : Nat) (button : Nat)
    (hit : Int) : World × List Event :=
  if button ≠ 0 then (w, [])
  else
    let w1 := Function.update w id (setActiveIndex (w id) hit)
    match activeItemOf (w1 id) with
    | none => (w1, [])
    | some item =>
      let w2 := Function.update w1 id (cancelTimersStep (w1 id))
      if item.type = MenuItemType.submenu then openChildMenu fuel w2 id
      else triggerItem fuel w2 id item

/-- The ancestor synchronization loop of `_evtMouseMove`: walk the
`parentMenu` links, cancelling timers and re-selecting each
ancestor's child item. -/
def syncAncestors : Nat → World → Option Nat → World
  | 0, w, _ => w
  | _, w, none => w
  | fuel + 1, w, some a =>
    let m := cancelTimersStep (w a)
    let m1 := setActiveIndex m m.childIndex
    let w1 := Function.update w a m1
    syncAncestors fuel w1 ((w1 a).parentMenu)

/-- The timer maintenance of `_evtMouseMove` once the hover target
differs from the open child: start the close timer if a child is
open, then cancel the open timer. -/
def mouseMoveTimerPhase (w : World) (id : Nat) : World :=
  if (w id).childIndex ≠ -1 then
    Function.update
      (Function.update w id (startCloseTimer (w id))) id
      (cancelOpenTimerStep
        ((Function.update w id (startCloseTimer (w id))) id))
  else Function.update w id (cancelOpenTimerStep (w id))

/-- The tail of `_evtMouseMove`: start the open timer when the active
item is a valid submenu item. -/
def mouseMoveOpenPhase (w : World) (id : Nat) : World :=
  match activeItemOf (w id) with
  | some item =>
    if item.type = MenuItemType.submenu ∧ item.submenu ≠ none then
      Function.update w id (startOpenTimer (w id))
    else w
  | none => w

/-- `_evtMouseMove`: update the selection from the hit test, sync the
ancestors, and manage the hover open/close timers. -/
def evtMouseMove (fuel : Nat) (w : World) (id : Nat) (hit : Int) : World :=
  if hit = (w id).activeIndex then w
  else
    let w1 := Function.update w id (setActiveIndex (w id) hit)
    let w2 := syncAncestors fuel w1 ((w1 id).parentMenu)
    if (w2 id).activeIndex = (w2 id).childIndex then
      Function.update w2 id (cancelTimersStep (w2 id))
    else
      mouseMoveOpenPhase (mouseMoveTimerPhase w2 id) id

/-- `_evtMouseLeave`.  `overChild` is the oracle result of hit-testing
the open child menu's node against the pointer position. -/
def evtMouseLeave (w : World) (id : Nat) (overChild : Bool) : World :=
  let w1 := Function.update w id (cancelOpenTimerStep (w id))
  if (w1 id).childMenu = none then
    Function.update w1 id (setActiveIndex (w1 id) (-1))
  else if overChild then
    Function.update w1 id (cancelCloseTimerStep (w1 id))
  else
    let w2 := Function.update w1 id (setActiveIndex (w1 id) (-1))
    Function.update w2 id (startCloseTimer (w2 id))

/-- `_evtKeyDown`: processed only by the leaf menu; dispatch on the
key code (13 Enter, 27 Escape, 37 Left, 38 Up, 39 Right, 40 Down). -/
def evtKeyDown (fuel : Nat) (w : World) (id : Nat) (kc : Nat) :
    World × List Event :=
  if (w id).childMenu ≠ none then (w, [])
  else if kc = 13 then
    match activeItemOf (w id) with
    | none => (w, [])
    | some item =>
      let w1 := Function.update w id (cancelTimersStep (w id))
      if item.type ≠ MenuItemType.submenu then triggerItem fuel w1 id item
      else
        let r := openChildMenu fuel w1 id
        match (r.1 id).childMenu with
        | some c =>
          (Function.update r.1 c (activateFirstSelectable (r.1 c)), r.2)
        | none => (r.1, r.2)
  else if kc = 27 then closeMenu fuel w id
  else if kc = 37 then
    if (w id).parentMenu ≠ none then closeMenu fuel w id else (w, [])
  else if kc = 38 then
    (Function.update w id (activatePrevSelectable (w id)), [])
  else if kc = 39 then
    match activeItemOf (w id) with
    | none => (w, [])
    | some item =>
      if item.type ≠ MenuItemType.submenu then (w, [])
      else
        let w1 := Function.update w id (cancelTimersStep (w id))
        let r := openChildMenu fuel w1 id
        match (r.1 id).childMenu with
        | some c =>
          (Function.update r.1 c (activateFirstSelectable (r.1 c)), r.2)
        | none => (r.1, r.2)
  else if kc = 40 then
    (Function.update w id (activateNextSelectable (w id)), [])
  else (w, [])

/-- `_evtKeyPress`: processed only by the leaf menu; run the mnemonic
search with the typed character. -/
def evtKeyPress (w : World) (id : Nat) (ch : Char) : World :=
  if (w id).childMenu ≠ none then w
  else Function.update w id (activateNextMnemonic (w id) ch)

/-- The chain walk of `_evtMouseDown`: does the press hit any menu
node in the open hierarchy?  `hits` is the per-menu hit-test oracle. -/
def chainHit : Nat → World → Nat → (Nat → Bool) → Bool
  | 0, _, _, _ => false
  | fuel + 1, w, id, hits =>
    hits id ||
      (match (w id).childMenu with
       | some c => chainHit fuel w c hits
       | none => false)

/-- `_evtMouseDown`: processed only by the root; swallow presses over
the hierarchy, otherwise close the whole chain. -/
def evtMouseDown (fuel : Nat) (w : World) (id : Nat) (hits : Nat → Bool) :
    World × List Event :=
  if (w id).parentMenu ≠ none then (w, [])
  else if chainHit (fuel + 1) w id hits then (w, [])
  else closeMenu fuel w id

/-- The x branch of `Private.openRootMenu` before the final clamp:
shift left by the overflow unless `forceX`. -/
def openRootRawX (px cw width x : Int) (forceX : Bool) : Int :=
  if ¬forceX ∧ px + cw < x + width then px + cw - width else x

/-- The y branch of `Private.openRootMenu` before the final clamp:
when the menu would overflow the viewport bottom and `forceY` is not
set, anchor the bottom edge to the viewport bottom if the requested y
is itself past the bottom, and otherwise flip the menu upward. -/
def openRootRawY (py ch height y : Int) (forceY : Bool) : Int :=
  if ¬forceY ∧ py + ch < y + height then
    if py + ch < y then py + ch - height else y - height
  else y

/-- The final position computed by `Private.openRootMenu` (left, top),
as a function of the viewport measurements (`px`/`py` scroll offsets,
`cw`/`ch` viewport size) and the measured menu size; both coordinates
are clamped to be nonnegative. -/
def openRootPosition (px py cw ch width height x y : Int)
    (forceX forceY : Bool) : Int × Int :=
  (max 0 (openRootRawX px cw width x forceX),
   max 0 (openRootRawY py ch height y forceY))

theorem coerceIndex_spec (m : MenuState) (v : Int) :
    coerceIndex m v = -1 ∨
      (coerceIndex m v = v ∧ 0 ≤ v ∧ v < (m.items.length : Int) ∧
        isSelectable (m.items.getD v.toNat default) = true) := by
  unfold coerceIndex
  split
  · left; rfl
  · next h =>
    split
    · left; rfl
    · next h2 =>
      right
      refine ⟨rfl, by omega, by omega, ?_⟩
      rcases Bool.eq_false_or_eq_true
          (isSelectable (m.items.getD v.toNat default)) with hb | hb
      · exact hb
      · exact absurd ⟨by omega, hb⟩ h2

theorem coerceIndex_neg_one (m : MenuState) : coerceIndex m (-1) = -1 := by
  rcases coerceIndex_spec m (-1) with h | h
  · exact h
  · omega

theorem coerceIndex_valid (m : MenuState) (k : Nat)
    (hk : (k : Int) < (m.items.length : Int))
    (hsel : isSelectable (m.items.getD k default) = true) :
    coerceIndex m (k : Int) = k := by
  unfold coerceIndex
  rw [if_neg (show ¬ ((k : Int) < 0 ∨ (m.items.length : Int) ≤ (k : Int)) by omega)]
  have hcond : ¬ ((k : Int) ≠ -1 ∧
      isSelectable (m.items.getD (k : Int).toNat default) = false) := by
    rw [Int.toNat_ofNat, hsel]
    simp
  rw [if_neg hcond]

theorem setActiveIndex_items (m : MenuState) (v : Int) :
    (setActiveIndex m v).items = m.items := by
  unfold setActiveIndex
  split <;> rfl

theorem moveActiveMark_length (nodes : List ItemNode) (old new : Int) :
    (moveActiveMark nodes old new).length = nodes.length := by
  unfold moveActiveMark
  split <;> split <;> simp [modifyAt_length]

theorem setActiveIndex_nodes_length (m : MenuState) (v : Int) :
    (setActiveIndex m v).nodes.length = m.nodes.length := by
  unfold setActiveIndex
  split
  · rfl
  · simp [moveActiveMark_length]

theorem setActiveIndex_childMenu (m : MenuState) (v : Int) :
    (setActiveIndex m v).childMenu = m.childMenu := by
  unfold setActiveIndex
  split <;> rfl

theorem setActiveIndex_childIndex (m : MenuState) (v : Int) :
    (setActiveIndex m v).childIndex = m.childIndex := by
  unfold setActiveIndex
  split <;> rfl

theorem setActiveIndex_parentMenu (m : MenuState) (v : Int) :
    (setActiveIndex m v).parentMenu = m.parentMenu := by
  unfold setActiveIndex
  split <;> rfl

theorem setActiveIndex_openTimerID (m : MenuState) (v : Int) :
    (setActiveIndex m v).openTimerID = m.openTimerID := by
  unfold setActiveIndex
  split <;> rfl

theorem setActiveIndex_closeTimerID (m : MenuState) (v : Int) :
    (setActiveIndex m v).closeTimerID = m.closeTimerID := by
  unfold setActiveIndex
  split <;> rfl

theorem setActiveIndex_attached (m : MenuState) (v : Int) :
    (setActiveIndex m v).attached = m.attached := by
  unfold setActiveIndex
  split <;> rfl

theorem setActiveIndex_parentWidget (m : MenuState) (v : Int) :
    (setActiveIndex m v).parentWidget = m.parentWidget := by
  unfold setActiveIndex
  split <;> rfl

theorem setActiveIndex_activeIndex (m : MenuState) (v : Int) :
    (setActiveIndex m v).activeIndex = coerceIndex m v := by
  unfold setActiveIndex
  split
  · next h => exact h
  · rfl

theorem setActiveIndex_neg_one (m : MenuState) :
    (setActiveIndex m (-1)).activeIndex = -1 := by
  rw [setActiveIndex_activeIndex, coerceIndex_neg_one]

/-- The selection invariant: no selection, or an in-range selectable
item is selected. -/
def ActiveInv (m : MenuState) : Prop :=
  m.activeIndex = -1 ∨
    (0 ≤ m.activeIndex ∧ m.activeIndex < (m.items.length : Int) ∧
      isSelectable (m.items.getD m.activeIndex.toNat default) = true)

theorem setActiveIndex_activeInv (m : MenuState) (v : Int) :
    ActiveInv (setActiveIndex m v) := by
  unfold ActiveInv
  rw [setActiveIndex_activeIndex, setActiveIndex_items]
  rcases coerceIndex_spec m v with h | h
  · left; exact h
  · right
    rw [h.1]
    exact ⟨h.2.1, h.2.2.1, h.2.2.2⟩

theorem setActiveIndex_valid (m : MenuState) (k : Nat)
    (hk : (k : Int) < (m.items.length : Int))
    (hsel : isSelectable (m.items.getD k default) = true) :
    (setActiveIndex m (k : Int)).activeIndex = k := by
  rw [setActiveIndex_activeIndex, coerceIndex_valid m k hk hsel]

theorem scanCyclic_none_spec (items : List MenuItem) (pred : MenuItem → Bool)
    (j : Nat) :
    ∀ r i, scanCyclic items pred j i r = none →
      ∀ t, t < r →
        pred (items.getD ((i + t + j) % items.length) default) = false := by
  intro r
  induction r with
  | zero => intro i _ t ht; omega
  | succ r ih =>
    intro i hnone t ht
    unfold scanCyclic at hnone
    split at hnone
    · exact absurd hnone (by simp)
    · next hfail =>
      cases t with
      | zero =>
        simpa using Bool.of_not_eq_true hfail
      | succ s =>
        have := ih (i + 1) hnone s (by omega)
        have harith : i + 1 + s + j = i + (s + 1) + j := by omega
        rwa [harith] at this

theorem scanCyclic_some_spec (items : List MenuItem) (pred : MenuItem → Bool)
    (j : Nat) :
    ∀ r i k, scanCyclic items pred j i r = some k →
      ∃ t, t < r ∧ k = (i + t + j) % items.length ∧
        pred (items.getD k default) = true ∧
        ∀ s, s < t →
          pred (items.getD ((i + s + j) % items.length) default) = false := by
  intro r
  induction r with
  | zero => intro i k h; exact absurd h (by simp [scanCyclic])
  | succ r ih =>
    intro i k hsome
    unfold scanCyclic at hsome
    split at hsome
    · next hpred =>
      refine ⟨0, by omega, ?_, ?_, fun s hs => by omega⟩
      · cases hsome; rfl
      · cases hsome; exact hpred
    · next hfail =>
      rcases ih (i + 1) k hsome with ⟨t, ht, hk, hp, hmin⟩
      refine ⟨t + 1, by omega, ?_, hp, ?_⟩
      · rw [hk]; congr 2; omega
      · intro s hs
        cases s with
        | zero => simpa using Bool.of_not_eq_true hfail
        | succ u =>
          have := hmin u (by omega)
          have harith : i + 1 + u + j = i + (u + 1) + j := by omega
          rwa [harith] at this

/-- A separator item (for the concrete separator-collapsing check). -/
def sepItem : MenuItem := { type := MenuItemType.separator }

/-- The menu of the separator-collapsing scenario: items
`[Separator, Normal "A", Separator, Separator, Normal "B", Separator]`,
none hidden. -/
def sepMenu : MenuState :=
  { items := [sepItem, { text := "A" }, sepItem, sepItem, { text := "B" }, sepItem],
    nodes := [{}, {}, {}, {}, {}, {}] }

/-- C4 counterexample: re-rendering the menu
`[Separator, "A", Separator, Separator, "B", Separator]` does NOT
suppress the claimed index set {0, 2, 5}: the interior pass keeps the
first separator of the consecutive pair (index 2) visible and
suppresses the second (index 3). -/
theorem separator_collapse_cx :
    ((onUpdateRequest sepMenu).nodes.map ItemNode.hiddenMarked ≠
      [true, false, true, false, false, true]) ∧
    (sepMenu.items.map MenuItem.hidden =
      [false, false, false, false, false, false]) := by
  decide

/-- C4 (amended): re-rendering the menu
`[Separator, "A", Separator, Separator, "B", Separator]` marks as
suppressed exactly the 1st, 4th and 6th items (indices 0, 3 and 5):
the leading separator, the second separator of the interior
consecutive pair, and the trailing separator — leaving exactly one
visible separator (index 2) between A and B. -/
theorem separator_collapse :
    (onUpdateRequest sepMenu).nodes.map ItemNode.hiddenMarked =
      [true, false, false, true, false, true] := by
  decide

/-- Written from the spec's words for C5 (not from the source): the
label contains the two-character marker immediately followed by a
character equal to the typed character case-insensitively, at any
position. -/
def specMnemonicContainsAux (c : Char) : Nat → List Char → Bool
  | 0, _ => false
  | fuel + 1, l =>
    match l with
    | '&' :: '&' :: d :: rest =>
      d.toUpper == c.toUpper ||
        specMnemonicContainsAux c fuel ('&' :: d :: rest)
    | _ :: rest => specMnemonicContainsAux c fuel rest
    | [] => false

def specMnemonicContains (text : String) (c : Char) : Bool :=
  specMnemonicContainsAux c text.data.length text.data

/-- C5 counterexample: a selectable item labeled with two mnemonic
markers.  The label contains the marker followed by a character
matching the typed character (so, by the claim, the item should be
activated), but the search inspects only the label's first marker,
finds no match anywhere, and clears the selection to -1 instead of
activating item 0. -/
theorem mnemonic_first_marker_cx :
    specMnemonicContains "&&a&&b" 'b' = true ∧
    isSelectable { text := "&&a&&b" } = true ∧
    (activateNextMnemonic
        { items := [{ text := "&&a&&b" }], nodes := [{}] } 'b').activeIndex
      = -1 := by
  decide

theorem mnemonicPred_selectable (c : Char) (item : MenuItem)
    (h : mnemonicPred c item = true) : isSelectable item = true := by
  unfold mnemonicPred at h
  rw [Bool.and_eq_true] at h
  exact h.1

/-- C5 (amended): mnemonic activation scans the selectable items
cyclically starting just after the current selection; an item matches
when the first occurrence in its label of the marker followed by a
word character has that character equal (case-insensitively) to the
typed character; the first match in scan order wins, and if no item
matches the selection is cleared to -1. -/
theorem mnemonic_first_marker :
    ∀ (m : MenuState) (ch : Char),
      (activateNextMnemonic m ch).items = m.items ∧
      ((∀ t, t < m.items.length →
          mnemonicPred ch.toUpper
            (m.items.getD ((t + (m.activeIndex + 1).toNat) % m.items.length)
              default) = false) →
        (activateNextMnemonic m ch).activeIndex = -1) ∧
      (∀ t, t < m.items.length →
        mnemonicPred ch.toUpper
          (m.items.getD ((t + (m.activeIndex + 1).toNat) % m.items.length)
            default) = true →
        (∀ s, s < t →
          mnemonicPred ch.toUpper
            (m.items.getD ((s + (m.activeIndex + 1).toNat) % m.items.length)
              default) = false) →
        (activateNextMnemonic m ch).activeIndex =
          (((t + (m.activeIndex + 1).toNat) % m.items.length : Nat) : Int)) := by
  intro m ch
  refine ⟨?_, ?_, ?_⟩
  · unfold activateNextMnemonic
    split <;> rw [setActiveIndex_items]
  · intro hall
    unfold activateNextMnemonic
    split
    · next k hk =>
      rcases scanCyclic_some_spec m.items (mnemonicPred ch.toUpper)
          (m.activeIndex + 1).toNat m.items.length 0 k hk with
        ⟨t, ht, hkeq, hp, _⟩
      rw [hkeq] at hp
      have := hall t ht
      rw [show 0 + t + (m.activeIndex + 1).toNat
            = t + (m.activeIndex + 1).toNat by omega] at hp
      rw [this] at hp
      cases hp
    · exact setActiveIndex_neg_one m
  · intro t ht hmatch hmin
    unfold activateNextMnemonic
    split
    · next k hk =>
      rcases scanCyclic_some_spec m.items (mnemonicPred ch.toUpper)
          (m.activeIndex + 1).toNat m.items.length 0 k hk with
        ⟨u, hu, hkeq, hp, humin⟩
      rw [show 0 + u + (m.activeIndex + 1).toNat
            = u + (m.activeIndex + 1).toNat by omega] at hkeq
      have hut : u = t := by
        rcases Nat.lt_trichotomy u t with hlt | heq | hgt
        · exfalso
          have := hmin u hlt
          rw [← hkeq] at this
          rw [this] at hp
          cases hp
        · exact heq
        · exfalso
          have := humin t hgt
          rw [show 0 + t + (m.activeIndex + 1).toNat
                = t + (m.activeIndex + 1).toNat by omega] at this
          rw [this] at hmatch
          cases hmatch
      subst hut
      rw [hkeq]
      apply setActiveIndex_valid
      · have hn : 0 < m.items.length := by omega
        have := Nat.mod_lt (u + (m.activeIndex + 1).toNat) hn
        omega
      · rw [← hkeq]
        exact mnemonicPred_selectable _ _ hp
    · next hnone =>
      exfalso
      have := scanCyclic_none_spec m.items (mnemonicPred ch.toUpper)
        (m.activeIndex + 1).toNat m.items.length 0 hnone t ht
      rw [show 0 + t + (m.activeIndex + 1).toNat
            = t + (m.activeIndex + 1).toNat by omega] at this
      rw [this] at hmatch
      cases hmatch

/-- C5 witness: one item labeled with a plain mnemonic; typing its
mnemonic character activates it. -/
theorem mnemonic_first_marker_witness :
    (activateNextMnemonic
        { items := [{ text := "&&s" }], nodes := [{}] } 's').activeIndex = 0 := by
  have h := (mnemonic_first_marker
      { items := [{ text := "&&s" }], nodes := [{}] } 's').2.2
      0 (by decide) (by decide) (fun s hs => by omega)
  simpa using h

/-- C6 counterexample: viewport `py = 0, ch = 100`, menu height 30,
requested `y = 90` (inside the viewport, `y + height` past the
bottom, `forceY` false).  The claim predicts a top coordinate of
`py + ch - height = 70`; the code instead flips the menu upward to
`y - height = 60`. -/
theorem root_y_flip_cx :
    (0 + 100 : Int) < 90 + 30 ∧ (90 : Int) ≤ 0 + 100 ∧
    openRootRawY 0 100 30 90 false = 60 ∧
    openRootRawY 0 100 30 90 false ≠ 0 + 100 - 30 := by
  decide

/-- C6 (amended): with `forceY` false and the bottom edge overflowing
the viewport, the code anchors the bottom edge to the viewport bottom
(top = `py + ch - height`) only when the requested y is itself past
the viewport bottom; when the requested y is inside the viewport the
menu is flipped upward instead, so the pre-clamp top is `y - height`
(the bottom edge lands on the requested y). -/
theorem root_y_flip (py ch height y : Int) :
    (py + ch < y + height → y ≤ py + ch →
      openRootRawY py ch height y false = y - height) ∧
    (py + ch < y → py + ch < y + height →
      openRootRawY py ch height y false = py + ch - height) := by
  constructor
  · intro h1 h2
    unfold openRootRawY
    rw [if_pos ⟨by simp, h1⟩, if_neg (by omega)]
  · intro h1 h2
    unfold openRootRawY
    rw [if_pos ⟨by simp, h2⟩, if_pos h1]

/-- C6 witness: concrete instances of both branches. -/
theorem root_y_flip_witness :
    openRootRawY 0 100 30 90 false = 90 - 30 ∧
    openRootRawY 0 100 30 120 false = 0 + 100 - 30 := by
  exact ⟨(root_y_flip 0 100 30 90).1 (by decide) (by decide),
         (root_y_flip 0 100 30 120).2 (by decide) (by decide)⟩

/-- C7 counterexample: viewport `px = 0, cw = 50`, menu width 80,
requested `x = 10`, `forceX` false.  The x adjustment yields `-30`,
and the final `max 0` clamp moves the menu to `left = 0`, so its
right edge (80) ends up past the viewport right edge (50), contrary
to the claim that the right edge never goes past it. -/
theorem root_x_clamp_cx :
    (0 + 50 : Int) < 10 + 80 ∧
    (openRootPosition 0 0 50 100 80 20 10 5 false false).1 = 0 ∧
    (0 + 50 : Int) < (openRootPosition 0 0 50 100 80 20 10 5 false false).1 + 80 := by
  decide

/-- C7 (amended): with `forceX` false and `x + width` past the
viewport right edge, the computed left coordinate is
`px + cw - width` — the right edge lands exactly on the viewport
right edge — provided the menu is no wider than `px + cw` (so the
shifted coordinate survives the final nonnegativity clamp); with
`forceX` true a nonnegative requested x is honored exactly. -/
theorem root_x_clamp (px py cw ch width height x y : Int) (fY : Bool) :
    (px + cw < x + width → width ≤ px + cw →
      (openRootPosition px py cw ch width height x y false fY).1 =
        px + cw - width ∧
      (openRootPosition px py cw ch width height x y false fY).1 + width =
        px + cw) ∧
    (0 ≤ x →
      (openRootPosition px py cw ch width height x y true fY).1 = x) := by
  constructor
  · intro h1 h2
    unfold openRootPosition openRootRawX
    rw [if_pos ⟨by simp, h1⟩]
    constructor
    · omega
    · simp only
      omega
  · intro h1
    unfold openRootPosition openRootRawX
    rw [if_neg (by simp)]
    simp only
    omega

/-- C7 witness: concrete instances of both amended branches. -/
theorem root_x_clamp_witness :
    (openRootPosition 0 0 50 100 30 20 40 5 false false).1 = 0 + 50 - 30 ∧
    (openRootPosition 0 0 50 100 80 20 60 5 true false).1 = 60 := by
  exact ⟨((root_x_clamp 0 0 50 100 30 20 40 5 false).1 (by decide) (by decide)).1,
         (root_x_clamp 0 0 50 100 80 20 60 5 false).2 (by decide)⟩

/-- C10: a `mouseup` whose button is not the primary button returns
before touching any state: the world is unchanged and no notification
is emitted. -/
theorem mouseup_nonprimary_noop (fuel : Nat) (w : World) (id : Nat)
    (button : Nat) (hit : Int) (h : button ≠ 0) :
    evtMouseUp fuel w id button hit = (w, []) := by
  unfold evtMouseUp
  rw [if_pos h]

/-- C10 witness: a secondary-button release on a concrete world. -/
theorem mouseup_nonprimary_noop_witness :
    evtMouseUp 1 (fun _ => default) 0 2 0 = ((fun _ => default : World), []) :=
  mouseup_nonprimary_noop 1 (fun _ => default) 0 2 0 (by decide)

/-- A step-shrinking relation between menu states: the close cascade
never writes anything except the reset values of each field (and it
never touches the item list or the node count).  Used to transport
facts across `closeMenu`. -/
structure StepShrink (m m' : MenuState) : Prop where
  items : m'.items = m.items
  nodesLen : m'.nodes.length = m.nodes.length
  active : m'.activeIndex = -1 ∨ m'.activeIndex = m.activeIndex
  child : m'.childMenu = none ∨ m'.childMenu = m.childMenu
  childIdx : m'.childIndex = -1 ∨ m'.childIndex = m.childIndex
  parent : m'.parentMenu = none ∨ m'.parentMenu = m.parentMenu
  openT : m'.openTimerID = 0 ∨ m'.openTimerID = m.openTimerID
  closeT : m'.closeTimerID = 0 ∨ m'.closeTimerID = m.closeTimerID
  att : m'.attached = false ∨ m'.attached = m.attached
  pw : m'.parentWidget = false ∨ m'.parentWidget = m.parentWidget

theorem orStep {α} {x y z d : α} (h1 : y = d ∨ y = x) (h2 : z = d ∨ z = y) :
    z = d ∨ z = x := by
  rcases h2 with h | h
  · exact Or.inl h
  · rw [h]; exact h1

theorem stepShrink_refl (m : MenuState) : StepShrink m m :=
  ⟨Eq.refl _, Eq.refl _, Or.inr (Eq.refl _), Or.inr (Eq.refl _),
   Or.inr (Eq.refl _), Or.inr (Eq.refl _), Or.inr (Eq.refl _),
   Or.inr (Eq.refl _), Or.inr (Eq.refl _), Or.inr (Eq.refl _)⟩

theorem stepShrink_trans {a b c : MenuState} (h1 : StepShrink a b) (h2 : StepShrink b c) :
    StepShrink a c :=
  ⟨h2.items.trans h1.items, h2.nodesLen.trans h1.nodesLen,
   orStep h1.active h2.active, orStep h1.child h2.child,
   orStep h1.childIdx h2.childIdx, orStep h1.parent h2.parent,
   orStep h1.openT h2.openT, orStep h1.closeT h2.closeT,
   orStep h1.att h2.att, orStep h1.pw h2.pw⟩

/-- World-wide shrink. -/
def WStepShrink (w w' : World) : Prop := ∀ j, StepShrink (w j) (w' j)

theorem wStepShrink_refl (w : World) : WStepShrink w w := fun _ => stepShrink_refl _

theorem wStepShrink_trans {a b c : World} (h1 : WStepShrink a b) (h2 : WStepShrink b c) :
    WStepShrink a c := fun j => stepShrink_trans (h1 j) (h2 j)

theorem wshrink_update {w : World} {a : Nat} {m : MenuState}
    (h : StepShrink (w a) m) : WStepShrink w (Function.update w a m) := by
  intro j
  by_cases hj : j = a
  · subst hj
    rw [Function.update_same]
    exact h
  · rw [Function.update_noteq hj]
    exact stepShrink_refl _

theorem shrink_cancelTimers (m : MenuState) : StepShrink m (cancelTimersStep m) :=
  ⟨Eq.refl _, Eq.refl _, Or.inr (Eq.refl _), Or.inr (Eq.refl _),
   Or.inr (Eq.refl _), Or.inr (Eq.refl _), Or.inl (Eq.refl _),
   Or.inl (Eq.refl _), Or.inr (Eq.refl _), Or.inr (Eq.refl _)⟩

theorem shrink_setActiveIndex_neg (m : MenuState) :
    StepShrink m (setActiveIndex m (-1)) :=
  ⟨setActiveIndex_items m _, setActiveIndex_nodes_length m _,
   Or.inl (setActiveIndex_neg_one m),
   Or.inr (setActiveIndex_childMenu m _),
   Or.inr (setActiveIndex_childIndex m _),
   Or.inr (setActiveIndex_parentMenu m _),
   Or.inr (setActiveIndex_openTimerID m _),
   Or.inr (setActiveIndex_closeTimerID m _),
   Or.inr (setActiveIndex_attached m _),
   Or.inr (setActiveIndex_parentWidget m _)⟩

theorem wshrink_closeStep0 (w : World) (id : Nat) :
    WStepShrink w (closeStep0 w id) :=
  wshrink_update
    (stepShrink_trans (shrink_cancelTimers (w id)) (shrink_setActiveIndex_neg _))

theorem wshrink_sever (w : World) (id c : Nat) : WStepShrink w (sever w id c) := by
  unfold sever
  refine wStepShrink_trans (wshrink_update ?_) (wshrink_update ?_)
  · exact ⟨Eq.refl _, Eq.refl _, Or.inr (Eq.refl _), Or.inl (Eq.refl _),
      Or.inl (Eq.refl _), Or.inr (Eq.refl _), Or.inr (Eq.refl _),
      Or.inr (Eq.refl _), Or.inr (Eq.refl _), Or.inr (Eq.refl _)⟩
  · exact ⟨Eq.refl _, Eq.refl _, Or.inr (Eq.refl _), Or.inr (Eq.refl _),
      Or.inr (Eq.refl _), Or.inl (Eq.refl _), Or.inr (Eq.refl _),
      Or.inr (Eq.refl _), Or.inr (Eq.refl _), Or.inr (Eq.refl _)⟩

theorem wshrink_unlinkFromParent (w : World) (id p : Nat) :
    WStepShrink w (unlinkFromParent w id p) := by
  unfold unlinkFromParent
  refine wStepShrink_trans (wshrink_update ?_) (wshrink_update ?_)
  · exact ⟨Eq.refl _, Eq.refl _, Or.inr (Eq.refl _), Or.inr (Eq.refl _),
      Or.inr (Eq.refl _), Or.inl (Eq.refl _), Or.inr (Eq.refl _),
      Or.inr (Eq.refl _), Or.inr (Eq.refl _), Or.inr (Eq.refl _)⟩
  · exact ⟨Eq.refl _, Eq.refl _, Or.inr (Eq.refl _), Or.inl (Eq.refl _),
      Or.inl (Eq.refl _), Or.inr (Eq.refl _), Or.inl (Eq.refl _),
      Or.inl (Eq.refl _), Or.inr (Eq.refl _), Or.inr (Eq.refl _)⟩

theorem wshrink_closeStepParent (w : World) (id : Nat) :
    WStepShrink w (closeStepParent w id) := by
  unfold closeStepParent
  split
  · exact wStepShrink_refl w
  · exact wshrink_unlinkFromParent w id _

theorem wshrink_closeStepDetach (w : World) (id : Nat) (evs : List Event) :
    WStepShrink w (closeStepDetach w id evs).1 := by
  unfold closeStepDetach
  split
  · exact wshrink_update ⟨Eq.refl _, Eq.refl _, Or.inr (Eq.refl _),
      Or.inr (Eq.refl _), Or.inr (Eq.refl _), Or.inr (Eq.refl _),
      Or.inr (Eq.refl _), Or.inr (Eq.refl _), Or.inl (Eq.refl _),
      Or.inl (Eq.refl _)⟩
  · split
    · exact wshrink_update ⟨Eq.refl _, Eq.refl _, Or.inr (Eq.refl _),
        Or.inr (Eq.refl _), Or.inr (Eq.refl _), Or.inr (Eq.refl _),
        Or.inr (Eq.refl _), Or.inr (Eq.refl _), Or.inl (Eq.refl _),
        Or.inr (Eq.refl _)⟩
    · exact wStepShrink_refl w

theorem closeChildMenu_none {w : World} {id : Nat} (fuel : Nat)
    (h : (w id).childMenu = none) : closeChildMenu fuel w id = (w, []) := by
  unfold closeChildMenu
  rw [h]

theorem closeChildMenu_some {w : World} {id c : Nat} (fuel : Nat)
    (h : (w id).childMenu = some c) :
    closeChildMenu fuel w id = closeMenu fuel (sever w id c) c := by
  unfold closeChildMenu
  rw [h]

theorem wshrink_closeMenu (fuel : Nat) :
    ∀ (w : World) (id : Nat), WStepShrink w (closeMenu fuel w id).1 := by
  induction fuel with
  | zero => intro w id; exact wStepShrink_refl w
  | succ fuel ih =>
    intro w id
    rw [closeMenu_succ]
    have h0 : WStepShrink w (closeStep0 w id) := wshrink_closeStep0 w id
    have hcc :
        WStepShrink (closeStep0 w id)
          (closeChildMenu fuel (closeStep0 w id) id).1 := by
      cases hm : ((closeStep0 w id) id).childMenu with
      | none =>
        rw [closeChildMenu_none fuel hm]
        exact wStepShrink_refl _
      | some c =>
        rw [closeChildMenu_some fuel hm]
        exact wStepShrink_trans (wshrink_sever _ id c) (ih _ c)
    refine wStepShrink_trans
      (wStepShrink_trans (wStepShrink_trans h0 hcc) (wshrink_closeStepParent _ id))
      (wshrink_closeStepDetach _ id _)

theorem wshrink_closeChildMenu (fuel : Nat) (w : World) (id : Nat) :
    WStepShrink w (closeChildMenu fuel w id).1 := by
  cases hm : (w id).childMenu with
  | none =>
    rw [closeChildMenu_none fuel hm]
    exact wStepShrink_refl w
  | some c =>
    rw [closeChildMenu_some fuel hm]
    exact wStepShrink_trans (wshrink_sever w id c) (wshrink_closeMenu fuel _ c)

theorem closeStepParent_none {w : World} {id : Nat}
    (h : (w id).parentMenu = none) : closeStepParent w id = w := by
  unfold closeStepParent
  rw [h]

theorem closeStepParent_some {w : World} {id p : Nat}
    (h : (w id).parentMenu = some p) :
    closeStepParent w id = unlinkFromParent w id p := by
  unfold closeStepParent
  rw [h]

/-- The fully quiescent closed state left behind by a close: no
pending timers, no selection, no child link, no parent link, detached
and unparented. -/
def CloseQuiescent (m : MenuState) : Prop :=
  m.openTimerID = 0 ∧ m.closeTimerID = 0 ∧ m.activeIndex = -1 ∧
    m.childMenu = none ∧ m.parentMenu = none ∧
    m.attached = false ∧ m.parentWidget = false

instance : DecidablePred CloseQuiescent := fun m => by
  unfold CloseQuiescent
  infer_instance

theorem cancelTimers_noop {m : MenuState} (h1 : m.openTimerID = 0)
    (h2 : m.closeTimerID = 0) : cancelTimersStep m = m := by
  unfold cancelTimersStep
  cases m
  simp_all

theorem setActiveIndex_noop {m : MenuState} (h : m.activeIndex = -1) :
    setActiveIndex m (-1) = m := by
  unfold setActiveIndex
  rw [coerceIndex_neg_one, if_pos h]

theorem closeStep0_noop {w : World} {id : Nat} (h1 : (w id).openTimerID = 0)
    (h2 : (w id).closeTimerID = 0) (h3 : (w id).activeIndex = -1) :
    closeStep0 w id = w := by
  unfold closeStep0
  rw [cancelTimers_noop h1 h2, setActiveIndex_noop h3,
    Function.update_eq_self]

/-- Closing a menu in the quiescent closed state changes nothing and
emits nothing. -/
theorem closeMenu_noop (fuel : Nat) (w : World) (id : Nat)
    (h : CloseQuiescent (w id)) : closeMenu (fuel + 1) w id = (w, []) := by
  obtain ⟨h1, h2, h3, h4, h5, h6, h7⟩ := h
  rw [closeMenu_succ, closeStep0_noop h1 h2 h3, closeChildMenu_none fuel h4]
  simp only
  rw [closeStepParent_none h5]
  unfold closeStepDetach
  rw [if_neg (by simp [h7]), if_neg (by simp [h6])]

theorem StepShrink.keepOpen0 {m m' : MenuState} (h : StepShrink m m')
    (hm : m.openTimerID = 0) : m'.openTimerID = 0 := by
  rcases h.openT with h2 | h2
  · exact h2
  · rw [h2, hm]

theorem StepShrink.keepClose0 {m m' : MenuState} (h : StepShrink m m')
    (hm : m.closeTimerID = 0) : m'.closeTimerID = 0 := by
  rcases h.closeT with h2 | h2
  · exact h2
  · rw [h2, hm]

theorem StepShrink.keepActiveNeg {m m' : MenuState} (h : StepShrink m m')
    (hm : m.activeIndex = -1) : m'.activeIndex = -1 := by
  rcases h.active with h2 | h2
  · exact h2
  · rw [h2, hm]

theorem StepShrink.keepChildNone {m m' : MenuState} (h : StepShrink m m')
    (hm : m.childMenu = none) : m'.childMenu = none := by
  rcases h.child with h2 | h2
  · exact h2
  · rw [h2, hm]

theorem StepShrink.keepChildIdxNeg {m m' : MenuState} (h : StepShrink m m')
    (hm : m.childIndex = -1) : m'.childIndex = -1 := by
  rcases h.childIdx with h2 | h2
  · exact h2
  · rw [h2, hm]

theorem StepShrink.keepParentNone {m m' : MenuState} (h : StepShrink m m')
    (hm : m.parentMenu = none) : m'.parentMenu = none := by
  rcases h.parent with h2 | h2
  · exact h2
  · rw [h2, hm]

theorem StepShrink.keepAttFalse {m m' : MenuState} (h : StepShrink m m')
    (hm : m.attached = false) : m'.attached = false := by
  rcases h.att with h2 | h2
  · exact h2
  · rw [h2, hm]

theorem StepShrink.keepPwFalse {m m' : MenuState} (h : StepShrink m m')
    (hm : m.parentWidget = false) : m'.parentWidget = false := by
  rcases h.pw with h2 | h2
  · exact h2
  · rw [h2, hm]

theorem closeStep0_at (w : World) (id : Nat) :
    (closeStep0 w id) id = setActiveIndex (cancelTimersStep (w id)) (-1) := by
  unfold closeStep0
  rw [Function.update_same]

/-- After a close, the closed menu itself is in the quiescent closed
state. -/
theorem closeMenu_quiescent (fuel : Nat) (w : World) (id : Nat) :
    CloseQuiescent ((closeMenu (fuel + 1) w id).1 id) := by
  rw [closeMenu_succ]
  have h1o : ((closeStep0 w id) id).openTimerID = 0 := by
    rw [closeStep0_at, setActiveIndex_openTimerID]
    rfl
  have h1c : ((closeStep0 w id) id).closeTimerID = 0 := by
    rw [closeStep0_at, setActiveIndex_closeTimerID]
    rfl
  have h1a : ((closeStep0 w id) id).activeIndex = -1 := by
    rw [closeStep0_at]
    exact setActiveIndex_neg_one _
  have h2 : ((closeChildMenu fuel (closeStep0 w id) id).1 id).openTimerID = 0 ∧
      ((closeChildMenu fuel (closeStep0 w id) id).1 id).closeTimerID = 0 ∧
      ((closeChildMenu fuel (closeStep0 w id) id).1 id).activeIndex = -1 ∧
      ((closeChildMenu fuel (closeStep0 w id) id).1 id).childMenu = none := by
    cases hm : ((closeStep0 w id) id).childMenu with
    | none =>
      rw [closeChildMenu_none fuel hm]
      exact ⟨h1o, h1c, h1a, hm⟩
    | some c =>
      rw [closeChildMenu_some fuel hm]
      have hs : ((sever (closeStep0 w id) id c) id).openTimerID = 0 ∧
          ((sever (closeStep0 w id) id c) id).closeTimerID = 0 ∧
          ((sever (closeStep0 w id) id c) id).activeIndex = -1 ∧
          ((sever (closeStep0 w id) id c) id).childMenu = none := by
        unfold sever
        by_cases hc : c = id
        · subst hc
          rw [Function.update_same, Function.update_same]
          exact ⟨h1o, h1c, h1a, rfl⟩
        · rw [Function.update_noteq (fun he => hc he.symm), Function.update_same]
          exact ⟨h1o, h1c, h1a, rfl⟩
      have hshr := wshrink_closeMenu fuel (sever (closeStep0 w id) id c) c id
      exact ⟨hshr.keepOpen0 hs.1, hshr.keepClose0 hs.2.1,
        hshr.keepActiveNeg hs.2.2.1, hshr.keepChildNone hs.2.2.2⟩
  obtain ⟨h2o, h2c, h2a, h2ch⟩ := h2
  have h3 : ((closeStepParent (closeChildMenu fuel (closeStep0 w id) id).1 id) id).openTimerID = 0 ∧
      ((closeStepParent (closeChildMenu fuel (closeStep0 w id) id).1 id) id).closeTimerID = 0 ∧
      ((closeStepParent (closeChildMenu fuel (closeStep0 w id) id).1 id) id).activeIndex = -1 ∧
      ((closeStepParent (closeChildMenu fuel (closeStep0 w id) id).1 id) id).childMenu = none ∧
      ((closeStepParent (closeChildMenu fuel (closeStep0 w id) id).1 id) id).parentMenu = none := by
    cases hp : ((closeChildMenu fuel (closeStep0 w id) id).1 id).parentMenu with
    | none =>
      rw [closeStepParent_none hp]
      exact ⟨h2o, h2c, h2a, h2ch, hp⟩
    | some p =>
      rw [closeStepParent_some hp]
      unfold unlinkFromParent
      by_cases hpid : p = id
      · subst hpid
        rw [Function.update_same, Function.update_same]
        exact ⟨rfl, rfl, h2a, rfl, rfl⟩
      · rw [Function.update_noteq (fun he => hpid he.symm), Function.update_same]
        exact ⟨h2o, h2c, h2a, h2ch, rfl⟩
  obtain ⟨h3o, h3c, h3a, h3ch, h3p⟩ := h3
  unfold closeStepDetach
  split
  · dsimp only
    rw [Function.update_same]
    exact ⟨h3o, h3c, h3a, h3ch, h3p, rfl, rfl⟩
  · next hpw =>
    split
    · dsimp only
      rw [Function.update_same]
      refine ⟨h3o, h3c, h3a, h3ch, h3p, rfl, ?_⟩
      revert hpw
      cases ((closeStepParent (closeChildMenu fuel (closeStep0 w id) id).1 id) id).parentWidget <;> simp
    · next hatt =>
      refine ⟨h3o, h3c, h3a, h3ch, h3p, ?_, ?_⟩
      · revert hatt
        cases ((closeStepParent (closeChildMenu fuel (closeStep0 w id) id).1 id) id).attached <;> simp
      · revert hpw
        cases ((closeStepParent (closeChildMenu fuel (closeStep0 w id) id).1 id) id).parentWidget <;> simp

/-- A detached menu with a live selection (reachable by setting
`activeIndex` on a closed menu). -/
def staleWorld : World :=
  fun _ => { items := [{ text := "A" }], nodes := [{}], activeIndex := 0 }

/-- C3 counterexample: closing an already-closed (detached,
unparented) menu is not always a state no-op — the close still resets
the active selection (though it emits nothing).  Menu 0 of
`staleWorld` is closed in the claim's sense yet `close()` changes its
`activeIndex` from 0 to -1. -/
theorem close_resets_selection_cx :
    (staleWorld 0).attached = false ∧ (staleWorld 0).parentWidget = false ∧
    (staleWorld 0).activeIndex = 0 ∧
    ((closeMenu 1 staleWorld 0).1 0).activeIndex = -1 ∧
    (closeMenu 1 staleWorld 0).2 = [] := by
  decide

/-- C3 (amended): calling `close()` twice produces the same end state
as calling it once and the second call emits nothing; more generally,
closing a menu that is in the quiescent closed state (no pending
timers, no selection, no parent/child links, detached, unparented) is
a complete no-op that emits nothing. -/
theorem close_idempotent :
    ∀ (f1 f2 : Nat) (w : World) (id : Nat),
      closeMenu (f2 + 1) (closeMenu (f1 + 1) w id).1 id =
        ((closeMenu (f1 + 1) w id).1, []) ∧
      (CloseQuiescent (w id) → closeMenu (f1 + 1) w id = (w, [])) := by
  intro f1 f2 w id
  exact ⟨closeMenu_noop f2 _ id (closeMenu_quiescent f1 w id),
         fun h => closeMenu_noop f1 w id h⟩

/-- C3 witness: a quiescent concrete menu; closing it does nothing. -/
theorem close_idempotent_witness :
    closeMenu 1 (fun _ => default) 0 = ((fun _ => default : World), []) :=
  (close_idempotent 0 0 (fun _ => default) 0).2
    ⟨rfl, rfl, rfl, rfl, rfl, rfl, rfl⟩

/-- The ancestor path of a menu: itself, then its `parentMenu` chain
(up to `fuel` links). -/
def parentChain : Nat → World → Nat → List Nat
  | 0, _, id => [id]
  | fuel + 1, w, id =>
    match (w id).parentMenu with
    | none => [id]
    | some p => id :: parentChain fuel w p

theorem triggerWalk_events (fuel : Nat) :
    ∀ (w : World) (id : Nat) (item : MenuItem),
      (triggerWalk fuel w id item).2 =
        (parentChain fuel w id).map (fun j => Event.triggered j item) := by
  induction fuel with
  | zero => intro w id item; rfl
  | succ fuel ih =>
    intro w id item
    unfold triggerWalk parentChain
    cases (w id).parentMenu with
    | none => rfl
    | some p => simp [ih w p item]

/-- A normal item (the one triggered in the cascade scenario). -/
def itemA : MenuItem := { text := "A" }

/-- A submenu item referencing menu `n`. -/
def subItem (n : Nat) : MenuItem :=
  { type := MenuItemType.submenu, submenu := some n }

/-- A fully open three-level chain: root menu 0 → submenu 1 →
submenu 2 (the leaf), with the leaf's normal item "A" selected. -/
def chain3 : World := fun n =>
  match n with
  | 0 => { items := [subItem 1], nodes := [{ active := true }], activeIndex := 0,
           childMenu := some 1, childIndex := 0, attached := true }
  | 1 => { items := [subItem 2], nodes := [{ active := true }], activeIndex := 0,
           parentMenu := some 0, childMenu := some 2, childIndex := 0,
           attached := true }
  | 2 => { items := [itemA], nodes := [{ active := true }], activeIndex := 0,
           parentMenu := some 1, attached := true }
  | _ + 3 => default

/-- C1: triggering a non-submenu selectable item emits `triggered`
with that item on the menu itself and then on every ancestor in
`parentMenu` order (the general first conjunct); pressing Enter on
the selected leaf item of a fully open three-level chain emits the
three `triggered` notifications in leaf-to-root order followed by the
close cascade, the root emits exactly one `closed` notification, and
all three menus end in the quiescent closed state. -/
theorem trigger_cascade :
    (∀ (fuel : Nat) (w : World) (id : Nat) (item : MenuItem),
        (triggerWalk fuel w id item).2 =
          (parentChain fuel w id).map (fun j => Event.triggered j item)) ∧
    (evtKeyDown 5 chain3 2 13).2 =
      [Event.triggered 2 itemA, Event.triggered 1 itemA,
       Event.triggered 0 itemA,
       Event.closed 2, Event.closed 1, Event.closed 0] ∧
    (evtKeyDown 5 chain3 2 13).2.count (Event.closed 0) = 1 ∧
    CloseQuiescent ((evtKeyDown 5 chain3 2 13).1 0) ∧
    CloseQuiescent ((evtKeyDown 5 chain3 2 13).1 1) ∧
    CloseQuiescent ((evtKeyDown 5 chain3 2 13).1 2) := by
  exact ⟨triggerWalk_events, by decide, by decide, by decide, by decide,
    by decide⟩

theorem wshrink_closeIfAttached (fuel : Nat) (w : World) (id : Nat) :
    WStepShrink w (closeIfAttached fuel w id).1 := by
  unfold closeIfAttached
  split
  · exact wshrink_closeMenu fuel w id
  · exact wStepShrink_refl w

/-- The items/nodes correspondence: both sequences always have the
same length. -/
def LenInvAll (w : World) : Prop :=
  ∀ j, (w j).items.length = (w j).nodes.length

theorem wshrink_lenInv {w w' : World} (h : WStepShrink w w')
    (hl : LenInvAll w) : LenInvAll w' := by
  intro j
  rw [(h j).items, (h j).nodesLen]
  exact hl j

theorem lenInv_insertItemW (fuel : Nat) (w : World) (id : Nat) (index : Int)
    (item : MenuItem) (h : LenInvAll w) :
    LenInvAll (insertItemW fuel w id index item).1 := by
  have hr := wshrink_lenInv (wshrink_closeIfAttached fuel w id) h
  unfold insertItemW
  intro j
  by_cases hj : j = id
  · subst hj
    dsimp only
    rw [Function.update_same]
    dsimp only
    rw [insertAt_length, insertAt_length, hr j]
  · dsimp only
    rw [Function.update_noteq hj]
    exact hr j

theorem lenInv_removeItemW (fuel : Nat) (w : World) (id : Nat) (index : Int)
    (h : LenInvAll w) : LenInvAll (removeItemW fuel w id index).1 := by
  unfold removeItemW
  split
  · exact h
  · next hin =>
    have hr := wshrink_lenInv (wshrink_closeIfAttached fuel w id) h
    intro j
    by_cases hj : j = id
    · subst hj
      dsimp only
      rw [Function.update_same]
      dsimp only
      have heq : ((closeIfAttached fuel w j).1 j).items = (w j).items :=
        (wshrink_closeIfAttached fuel w j j).items
      have hi1 : index.toNat < ((closeIfAttached fuel w j).1 j).items.length := by
        rw [heq]
        omega
      have hi2 : index.toNat < ((closeIfAttached fuel w j).1 j).nodes.length := by
        rw [← hr j]
        exact hi1
      rw [eraseAt_length _ _ hi1, eraseAt_length _ _ hi2, hr j]
    · dsimp only
      rw [Function.update_noteq hj]
      exact hr j

theorem lenInv_clearItemsW (fuel : Nat) (w : World) (id : Nat)
    (h : LenInvAll w) : LenInvAll (clearItemsW fuel w id).1 := by
  have hr := wshrink_lenInv (wshrink_closeIfAttached fuel w id) h
  unfold clearItemsW
  intro j
  by_cases hj : j = id
  · subst hj
    dsimp only
    rw [Function.update_same]
    rfl
  · dsimp only
    rw [Function.update_noteq hj]
    exact hr j

/-- A collection mutation: `insertItem` (and thereby `addItem`),
`removeItem`, or `clearItems`, with arbitrary target menu, index and
item. -/
inductive CollOp where
  | insert (id : Nat) (index : Int) (item : MenuItem)
  | remove (id : Nat) (index : Int)
  | clear (id : Nat)

def applyCollOp (fuel : Nat) (w : World) : CollOp → World × List Event
  | CollOp.insert id index item => insertItemW fuel w id index item
  | CollOp.remove id index => removeItemW fuel w id index
  | CollOp.clear id => clearItemsW fuel w id

/-- Run a sequence of collection mutations (every prefix of the
sequence is itself such a run, so an invariant proved for all `ops`
holds after each call). -/
def applyCollOps (fuel : Nat) : World → List CollOp → World
  | w, [] => w
  | w, op :: ops => applyCollOps fuel (applyCollOp fuel w op).1 ops

/-- C8: for every sequence of `insertItem` / `removeItem` /
`clearItems` calls with arbitrary indices and items (on any menus of
the world), `len(items) = len(nodes)` holds after each call. -/
theorem items_nodes_length_inv :
    ∀ (fuel : Nat) (ops : List CollOp) (w : World),
      LenInvAll w → ∀ j,
        ((applyCollOps fuel w ops) j).items.length =
          ((applyCollOps fuel w ops) j).nodes.length := by
  intro fuel ops
  induction ops with
  | nil => intro w h j; exact h j
  | cons op ops ih =>
    intro w h
    apply ih
    cases op with
    | insert id index item => exact lenInv_insertItemW fuel w id index item h
    | remove id index => exact lenInv_removeItemW fuel w id index h
    | clear id => exact lenInv_clearItemsW fuel w id h

/-- C8 witness: one concrete insertion on the empty world. -/
theorem items_nodes_length_inv_witness :
    ((applyCollOps 1 (fun _ => default) [CollOp.insert 0 0 itemA]) 0).items.length =
      ((applyCollOps 1 (fun _ => default) [CollOp.insert 0 0 itemA]) 0).nodes.length :=
  items_nodes_length_inv 1 [CollOp.insert 0 0 itemA] (fun _ => default)
    (fun _ => rfl) 0

/-- The link invariant of the chain (cross-instance): `childMenu` and
`childIndex` agree, both sides of every parent/child link point at
each other, and a linked pair is attached. -/
def LinkOk (w : World) : Prop :=
  ∀ id : Nat,
    ((w id).childMenu = none ↔ (w id).childIndex = -1) ∧
    (∀ c, (w id).childMenu = some c →
      (w c).parentMenu = some id ∧
        (w id).attached = true ∧ (w c).attached = true) ∧
    (∀ p, (w id).parentMenu = some p → (w p).childMenu = some id)

/-- Acyclicity of the child links, witnessed by a depth measure. -/
def Acyc (w : World) : Prop :=
  ∃ d : Nat → Nat, ∀ q r, (w q).childMenu = some r → d r < d q

/-- The inductive invariant maintained by the chain state machine. -/
def ChainInv (w : World) : Prop := LinkOk w ∧ Acyc w

/-- Reachability along `childMenu` links. -/
inductive ChildReach (w : World) : Nat → Nat → Prop
  | refl (x : Nat) : ChildReach w x x
  | step {x c y : Nat} : (w x).childMenu = some c → ChildReach w c y →
      ChildReach w x y

/-- Every child link of `w'` is a child link of `w`. -/
def LinkSubset (w w' : World) : Prop :=
  ∀ q r, (w' q).childMenu = some r → (w q).childMenu = some r

theorem wshrink_linkSubset {w w' : World} (h : WStepShrink w w') :
    LinkSubset w w' := by
  intro q r hqr
  rcases (h q).child with h2 | h2
  · rw [h2] at hqr
    cases hqr
  · rw [h2] at hqr
    exact hqr

theorem childReach_mono {w w' : World} (h : LinkSubset w w') {a b : Nat}
    (hr : ChildReach w' a b) : ChildReach w a b := by
  induction hr with
  | refl x => exact ChildReach.refl x
  | step hx _ ih => exact ChildReach.step (h _ _ hx) ih

theorem acyc_mono {w w' : World} (h : LinkSubset w w') (ha : Acyc w) :
    Acyc w' := by
  rcases ha with ⟨d, hd⟩
  exact ⟨d, fun q r hqr => hd q r (h q r hqr)⟩

theorem childReach_measure {w : World} {d : Nat → Nat}
    (hd : ∀ q r, (w q).childMenu = some r → d r < d q) {a b : Nat}
    (hr : ChildReach w a b) : d b ≤ d a := by
  induction hr with
  | refl x => exact Nat.le.refl
  | step hx _ ih => exact ih.trans (Nat.le_of_lt (hd _ _ hx))

theorem acyc_no_self_child {w : World} (ha : Acyc w) {x : Nat} :
    (w x).childMenu ≠ some x := by
  intro hx
  rcases ha with ⟨d, hd⟩
  exact absurd (hd x x hx) (lt_irrefl _)

theorem acyc_no_back_reach {w : World} (ha : Acyc w) {x c : Nat}
    (hx : (w x).childMenu = some c) : ¬ ChildReach w c x := by
  intro hr
  rcases ha with ⟨d, hd⟩
  have h1 := childReach_measure hd hr
  have h2 := hd x c hx
  omega

/-- Under the link invariant, everything properly reachable along
child links is attached. -/
theorem childReach_attached {w : World} (hL : LinkOk w) {a b : Nat}
    (hr : ChildReach w a b) : a = b ∨ (w b).attached = true := by
  induction hr with
  | refl x => exact Or.inl rfl
  | step hx hrest ih =>
    rcases ih with heq | hatt
    · subst heq
      exact Or.inr ((hL _).2.1 _ hx).2.2
    · exact Or.inr hatt

theorem closeStep0_frame {w : World} {id j : Nat} (h : j ≠ id) :
    (closeStep0 w id) j = w j := by
  unfold closeStep0
  exact Function.update_noteq h _ _

theorem closeStep0_childMenu (w : World) (id : Nat) :
    ((closeStep0 w id) id).childMenu = (w id).childMenu := by
  rw [closeStep0_at, setActiveIndex_childMenu]
  rfl

theorem closeStep0_childIndex (w : World) (id : Nat) :
    ((closeStep0 w id) id).childIndex = (w id).childIndex := by
  rw [closeStep0_at, setActiveIndex_childIndex]
  rfl

theorem closeStep0_parentMenu (w : World) (id : Nat) :
    ((closeStep0 w id) id).parentMenu = (w id).parentMenu := by
  rw [closeStep0_at, setActiveIndex_parentMenu]
  rfl

theorem closeStep0_attached (w : World) (id : Nat) :
    ((closeStep0 w id) id).attached = (w id).attached := by
  rw [closeStep0_at, setActiveIndex_attached]
  rfl

theorem sever_frame {w : World} {id c j : Nat} (h1 : j ≠ id) (h2 : j ≠ c) :
    (sever w id c) j = w j := by
  unfold sever
  rw [Function.update_noteq h2, Function.update_noteq h1]

theorem sever_at_id {w : World} {id c : Nat} (hc : c ≠ id) :
    (sever w id c) id = { w id with childIndex := -1, childMenu := none } := by
  unfold sever
  rw [Function.update_noteq (fun he => hc he.symm), Function.update_same]

theorem sever_at_c {w : World} {id c : Nat} (hc : c ≠ id) :
    (sever w id c) c = { w c with parentMenu := none } := by
  unfold sever
  rw [Function.update_same, Function.update_noteq hc]

theorem sever_parent_none (w : World) (id c : Nat) :
    ((sever w id c) c).parentMenu = none := by
  unfold sever
  rw [Function.update_same]

theorem unlink_frame {w : World} {id p j : Nat} (h1 : j ≠ id) (h2 : j ≠ p) :
    (unlinkFromParent w id p) j = w j := by
  unfold unlinkFromParent
  rw [Function.update_noteq h2, Function.update_noteq h1]

theorem unlink_at_id {w : World} {id p : Nat} (hp : p ≠ id) :
    (unlinkFromParent w id p) id = { w id with parentMenu := none } := by
  unfold unlinkFromParent
  rw [Function.update_noteq (fun he => hp he.symm), Function.update_same]

theorem unlink_at_p {w : World} {id p : Nat} (hp : p ≠ id) :
    (unlinkFromParent w id p) p =
      { w p with openTimerID := 0, closeTimerID := 0,
                 childIndex := -1, childMenu := none } := by
  unfold unlinkFromParent
  rw [Function.update_same, Function.update_noteq hp]

theorem detach_frame {w : World} {id j : Nat} (evs : List Event)
    (h : j ≠ id) : (closeStepDetach w id evs).1 j = w j := by
  unfold closeStepDetach
  split
  · dsimp only
    rw [Function.update_noteq h]
  · split
    · dsimp only
      rw [Function.update_noteq h]
    · rfl

theorem detach_at_id_links (w : World) (id : Nat) (evs : List Event) :
    ((closeStepDetach w id evs).1 id).childMenu = (w id).childMenu ∧
    ((closeStepDetach w id evs).1 id).childIndex = (w id).childIndex ∧
    ((closeStepDetach w id evs).1 id).parentMenu = (w id).parentMenu := by
  unfold closeStepDetach
  split
  · dsimp only
    rw [Function.update_same]
    exact ⟨rfl, rfl, rfl⟩
  · split
    · dsimp only
      rw [Function.update_same]
      exact ⟨rfl, rfl, rfl⟩
    · exact ⟨rfl, rfl, rfl⟩

/-- Frame property of the close cascade: closing a parentless menu
touches only the menus child-reachable from it. -/
theorem closeMenu_frame (fuel : Nat) :
    ∀ (w : World) (x j : Nat), (w x).parentMenu = none →
      ¬ ChildReach w x j → (closeMenu fuel w x).1 j = w j := by
  induction fuel with
  | zero => intro w x j _ _; rfl
  | succ fuel ih =>
    intro w x j hpar hnr
    have hjx : j ≠ x := fun he => hnr (he ▸ ChildReach.refl j)
    rw [closeMenu_succ]
    have hw1p : ((closeStep0 w x) x).parentMenu = none := by
      rw [closeStep0_parentMenu]
      exact hpar
    cases hm : ((closeStep0 w x) x).childMenu with
    | none =>
      rw [closeChildMenu_none fuel hm]
      dsimp only
      rw [closeStepParent_none hw1p, detach_frame _ hjx, closeStep0_frame hjx]
    | some c =>
      rw [closeChildMenu_some fuel hm]
      have hmc : (w x).childMenu = some c := by
        rw [← closeStep0_childMenu]
        exact hm
      have hjc : j ≠ c := fun he =>
        hnr (he ▸ ChildReach.step hmc (ChildReach.refl c))
      have hsub : LinkSubset w (sever (closeStep0 w x) x c) :=
        wshrink_linkSubset
          (wStepShrink_trans (wshrink_closeStep0 w x) (wshrink_sever _ x c))
      have hnr2 : ¬ ChildReach (sever (closeStep0 w x) x c) c j := by
        intro hr
        exact hnr (ChildReach.step hmc (childReach_mono hsub hr))
      have hframe := ih (sever (closeStep0 w x) x c) c j
        (sever_parent_none _ x c) hnr2
      have hx1 : (closeMenu fuel (sever (closeStep0 w x) x c) c).1 j = w j := by
        rw [hframe, sever_frame hjx hjc, closeStep0_frame hjx]
      have hxp : ((closeMenu fuel (sever (closeStep0 w x) x c) c).1 x).parentMenu
          = none := by
        apply StepShrink.keepParentNone
          (wshrink_closeMenu fuel (sever (closeStep0 w x) x c) c x)
        by_cases hcx : c = x
        · subst hcx
          rw [sever_parent_none]
        · rw [sever_at_id hcx]
          dsimp only
          rw [closeStep0_parentMenu]
          exact hpar
      rw [closeStepParent_none hxp, detach_frame _ hjx, hx1]

/-- Two worlds equal on all link-relevant fields. -/
def LinkFieldsEq (w w' : World) : Prop :=
  ∀ j, (w' j).childMenu = (w j).childMenu ∧
    (w' j).childIndex = (w j).childIndex ∧
    (w' j).parentMenu = (w j).parentMenu ∧
    (w' j).attached = (w j).attached

theorem chainInv_transport {w w' : World} (h : LinkFieldsEq w w')
    (hi : ChainInv w) : ChainInv w' := by
  obtain ⟨hL, hA⟩ := hi
  constructor
  · intro id
    obtain ⟨e1, e2, e3, e4⟩ := h id
    refine ⟨?_, ?_, ?_⟩
    · rw [e1, e2]
      exact (hL id).1
    · intro c hc
      rw [e1] at hc
      obtain ⟨f1, f2, f3⟩ := (hL id).2.1 c hc
      exact ⟨by rw [(h c).2.2.1]; exact f1, by rw [e4]; exact f2,
        by rw [(h c).2.2.2]; exact f3⟩
    · intro p hp
      rw [e3] at hp
      rw [(h p).1]
      exact (hL id).2.2 p hp
  · rcases hA with ⟨d, hd⟩
    exact ⟨d, fun q r hqr => hd q r (by rw [← (h q).1]; exact hqr)⟩

theorem closeStep0_linkFieldsEq (w : World) (id : Nat) :
    LinkFieldsEq w (closeStep0 w id) := by
  intro j
  by_cases hj : j = id
  · subst hj
    exact ⟨closeStep0_childMenu w j, closeStep0_childIndex w j,
      closeStep0_parentMenu w j, closeStep0_attached w j⟩
  · rw [closeStep0_frame hj]
    exact ⟨rfl, rfl, rfl, rfl⟩

/-- Severing an actual parent/child pair preserves the chain
invariant. -/
theorem sever_chainInv {w : World} {id c : Nat} (hInv : ChainInv w)
    (hc : (w id).childMenu = some c) : ChainInv (sever w id c) := by
  obtain ⟨hL, hA⟩ := hInv
  have hcid : c ≠ id := by
    intro he
    rw [he] at hc
    exact acyc_no_self_child hA hc
  have rid := sever_at_id (w := w) hcid
  have rc := sever_at_c (w := w) hcid
  constructor
  · intro j
    by_cases hjid : j = id
    · rw [hjid, rid]
      refine ⟨by simp, ?_, ?_⟩
      · intro c2 hc2
        cases hc2
      · intro p hp
        have hp2 : (w id).parentMenu = some p := hp
        have f := (hL id).2.2 p hp2
        have hpid : p ≠ id := by
          intro he
          rw [he, hc] at f
          exact hcid (Option.some.inj f)
        have hpc : p ≠ c := by
          intro he
          rw [he] at f
          exact acyc_no_back_reach hA hc
            (ChildReach.step f (ChildReach.refl id))
        rw [sever_frame hpid hpc]
        exact f
    · by_cases hjc : j = c
      · rw [hjc, rc]
        refine ⟨(hL c).1, ?_, ?_⟩
        · intro r hr
          have hr2 : (w c).childMenu = some r := hr
          obtain ⟨f1, f2, f3⟩ := (hL c).2.1 r hr2
          have hrid : r ≠ id := by
            intro he
            rw [he] at hr2
            exact acyc_no_back_reach hA hc
              (ChildReach.step hr2 (ChildReach.refl id))
          have hrc : r ≠ c := by
            intro he
            rw [he] at hr2
            exact acyc_no_self_child hA hr2
          rw [sever_frame hrid hrc]
          exact ⟨f1, f2, f3⟩
        · intro p hp
          cases hp
      · rw [sever_frame hjid hjc]
        refine ⟨(hL j).1, ?_, ?_⟩
        · intro r hr
          obtain ⟨f1, f2, f3⟩ := (hL j).2.1 r hr
          have hrc : r ≠ c := by
            intro he
            obtain ⟨g1, _, _⟩ := (hL id).2.1 c hc
            rw [he] at f1
            rw [f1] at g1
            exact hjid (Option.some.inj g1)
          by_cases hrid : r = id
          · rw [hrid, rid]
            rw [hrid] at f1 f3
            exact ⟨f1, f2, f3⟩
          · rw [sever_frame hrid hrc]
            exact ⟨f1, f2, f3⟩
        · intro p hp
          have f := (hL j).2.2 p hp
          have hpid : p ≠ id := by
            intro he
            rw [he, hc] at f
            exact hjc (Option.some.inj f).symm
          by_cases hpc : p = c
          · rw [hpc, rc]
            rw [hpc] at f
            exact f
          · rw [sever_frame hpid hpc]
            exact f
  · exact acyc_mono (wshrink_linkSubset (wshrink_sever w id c)) hA

/-- Unlinking a menu (whose own child is already gone) from its
parent preserves the chain invariant. -/
theorem unlink_chainInv {w : World} {id p : Nat} (hInv : ChainInv w)
    (hp : (w id).parentMenu = some p) (hchn : (w id).childMenu = none) :
    ChainInv (unlinkFromParent w id p) := by
  obtain ⟨hL, hA⟩ := hInv
  have hpc : (w p).childMenu = some id := (hL id).2.2 p hp
  have hpid : p ≠ id := by
    intro he
    rw [he] at hpc
    rw [hchn] at hpc
    cases hpc
  have uid := unlink_at_id (w := w) hpid
  have up := unlink_at_p (w := w) hpid
  constructor
  · intro j
    by_cases hjid : j = id
    · rw [hjid, uid]
      refine ⟨(hL id).1, ?_, ?_⟩
      · intro c2 hc2
        have hc2b : (w id).childMenu = some c2 := hc2
        rw [hchn] at hc2b
        cases hc2b
      · intro q hq
        cases hq
    · by_cases hjp : j = p
      · rw [hjp, up]
        refine ⟨by simp, ?_, ?_⟩
        · intro c2 hc2
          cases hc2
        · intro q hq
          have hq2 : (w p).parentMenu = some q := hq
          have f := (hL p).2.2 q hq2
          have hqid : q ≠ id := by
            intro he
            rw [he] at f
            rw [hchn] at f
            cases f
          have hqp : q ≠ p := by
            intro he
            rw [he] at f
            exact acyc_no_self_child hA f
          rw [unlink_frame hqid hqp]
          exact f
      · rw [unlink_frame hjid hjp]
        refine ⟨(hL j).1, ?_, ?_⟩
        · intro r hr
          obtain ⟨f1, f2, f3⟩ := (hL j).2.1 r hr
          have hrid : r ≠ id := by
            intro he
            rw [he] at f1
            rw [hp] at f1
            exact hjp (Option.some.inj f1).symm
          by_cases hrp : r = p
          · rw [hrp, up]
            rw [hrp] at f1 f3
            exact ⟨f1, f2, f3⟩
          · rw [unlink_frame hrid hrp]
            exact ⟨f1, f2, f3⟩
        · intro q hq
          have f := (hL j).2.2 q hq
          have hqp : q ≠ p := by
            intro he
            rw [he] at f
            rw [hpc] at f
            exact hjid (Option.some.inj f).symm
          have hqid : q ≠ id := by
            intro he
            rw [he] at f
            rw [hchn] at f
            cases f
          rw [unlink_frame hqid hqp]
          exact f
  · exact acyc_mono (wshrink_linkSubset (wshrink_unlinkFromParent w id p)) hA

/-- Overwriting a fully unlinked menu's record (link fields kept)
preserves the chain invariant, regardless of the new attach flags. -/
theorem update_unlinked_chainInv {w : World} {id : Nat} {A : MenuState}
    (hInv : ChainInv w) (hchn : (w id).childMenu = none)
    (hpn : (w id).parentMenu = none)
    (e1 : A.childMenu = (w id).childMenu)
    (e2 : A.childIndex = (w id).childIndex)
    (e3 : A.parentMenu = (w id).parentMenu) :
    ChainInv (Function.update w id A) := by
  obtain ⟨hL, hA⟩ := hInv
  constructor
  · intro j
    by_cases hj : j = id
    · rw [hj, Function.update_same]
      refine ⟨?_, ?_, ?_⟩
      · rw [e1, e2]
        exact (hL id).1
      · intro c2 hc2
        rw [e1, hchn] at hc2
        cases hc2
      · intro q hq
        rw [e3, hpn] at hq
        cases hq
    · rw [Function.update_noteq hj]
      refine ⟨(hL j).1, ?_, ?_⟩
      · intro r hr
        obtain ⟨f1, f2, f3⟩ := (hL j).2.1 r hr
        have hrid : r ≠ id := by
          intro he
          rw [he] at f1
          rw [hpn] at f1
          cases f1
        rw [Function.update_noteq hrid]
        exact ⟨f1, f2, f3⟩
      · intro q hq
        have f := (hL j).2.2 q hq
        have hqid : q ≠ id := by
          intro he
          rw [he] at f
          rw [hchn] at f
          cases f
        rw [Function.update_noteq hqid]
        exact f
  · apply acyc_mono ?_ hA
    intro q r hqr
    by_cases hq : q = id
    · rw [hq] at hqr
      rw [Function.update_same] at hqr
      rw [hq]
      rw [← e1]
      exact hqr
    · rw [Function.update_noteq hq] at hqr
      exact hqr

/-- The detach step preserves the chain invariant once the menu is
fully unlinked. -/
theorem detach_chainInv {w : World} {id : Nat} (evs : List Event)
    (hInv : ChainInv w) (hchn : (w id).childMenu = none)
    (hpn : (w id).parentMenu = none) :
    ChainInv (closeStepDetach w id evs).1 := by
  unfold closeStepDetach
  split
  · dsimp only
    exact update_unlinked_chainInv hInv hchn hpn rfl rfl rfl
  · split
    · dsimp only
      exact update_unlinked_chainInv hInv hchn hpn rfl rfl rfl
    · exact hInv

theorem sever_child_none (w : World) (id c : Nat) :
    ((sever w id c) id).childMenu = none := by
  by_cases hcid : c = id
  · rw [hcid]
    unfold sever
    rw [Function.update_same]
    dsimp only
    rw [Function.update_same]
  · rw [sever_at_id hcid]

theorem closeStepParent_props {w : World} {id : Nat} (hInv : ChainInv w)
    (hchn : (w id).childMenu = none) :
    ChainInv (closeStepParent w id) ∧
    ((closeStepParent w id) id).childMenu = none ∧
    ((closeStepParent w id) id).parentMenu = none := by
  cases hp : (w id).parentMenu with
  | none =>
    rw [closeStepParent_none hp]
    exact ⟨hInv, hchn, hp⟩
  | some p =>
    rw [closeStepParent_some hp]
    have hc2 := unlink_chainInv hInv hp hchn
    have hpc : (w p).childMenu = some id := (hInv.1 id).2.2 p hp
    have hpid : p ≠ id := by
      intro he
      rw [he] at hpc
      rw [hchn] at hpc
      cases hpc
    refine ⟨hc2, ?_, ?_⟩
    · rw [unlink_at_id hpid]
      exact hchn
    · rw [unlink_at_id hpid]

theorem chainInv_closeMenu (fuel : Nat) :
    ∀ (w : World) (id : Nat), ChainInv w → ChainInv (closeMenu fuel w id).1 := by
  induction fuel with
  | zero => intro w id h; exact h
  | succ fuel ih =>
    intro w id hInv
    rw [closeMenu_succ]
    have h1 : ChainInv (closeStep0 w id) :=
      chainInv_transport (closeStep0_linkFieldsEq w id) hInv
    have h2 : ChainInv (closeChildMenu fuel (closeStep0 w id) id).1 := by
      cases hm : ((closeStep0 w id) id).childMenu with
      | none =>
        rw [closeChildMenu_none fuel hm]
        exact h1
      | some c =>
        rw [closeChildMenu_some fuel hm]
        exact ih _ c (sever_chainInv h1 hm)
    have h2ch : ((closeChildMenu fuel (closeStep0 w id) id).1 id).childMenu
        = none := by
      cases hm : ((closeStep0 w id) id).childMenu with
      | none =>
        rw [closeChildMenu_none fuel hm]
        exact hm
      | some c =>
        rw [closeChildMenu_some fuel hm]
        exact StepShrink.keepChildNone (wshrink_closeMenu fuel _ c id)
          (sever_child_none _ id c)
    obtain ⟨h3inv, h3ch, h3pn⟩ := closeStepParent_props h2 h2ch
    exact detach_chainInv _ h3inv h3ch h3pn

theorem chainInv_closeChildMenu (fuel : Nat) (w : World) (id : Nat)
    (hInv : ChainInv w) : ChainInv (closeChildMenu fuel w id).1 := by
  cases hm : (w id).childMenu with
  | none =>
    rw [closeChildMenu_none fuel hm]
    exact hInv
  | some c =>
    rw [closeChildMenu_some fuel hm]
    exact chainInv_closeMenu fuel _ c (sever_chainInv hInv hm)

theorem openSubmenuW_frame {w : World} {sm j : Nat} (h : j ≠ sm) :
    (openSubmenuW w sm) j = w j := by
  unfold openSubmenuW
  rw [Function.update_noteq h, Function.update_noteq h]

theorem openSubmenuW_at (w : World) (sm : Nat) :
    (openSubmenuW w sm) sm =
      { onUpdateRequest (w sm) with attached := true } := by
  unfold openSubmenuW
  rw [Function.update_same]
  dsimp only
  rw [Function.update_same]

theorem onUpdateRequest_childMenu (m : MenuState) :
    (onUpdateRequest m).childMenu = m.childMenu := rfl

theorem onUpdateRequest_childIndex (m : MenuState) :
    (onUpdateRequest m).childIndex = m.childIndex := rfl

theorem onUpdateRequest_parentMenu (m : MenuState) :
    (onUpdateRequest m).parentMenu = m.parentMenu := rfl

theorem onUpdateRequest_activeIndex (m : MenuState) :
    (onUpdateRequest m).activeIndex = m.activeIndex := rfl

theorem onUpdateRequest_attached (m : MenuState) :
    (onUpdateRequest m).attached = m.attached := rfl

theorem onUpdateRequest_items (m : MenuState) :
    (onUpdateRequest m).items = m.items := rfl

/-- Linking a fresh (unattached, hence unlinked) submenu under an
attached menu with a live selection, then opening it, preserves the
chain invariant.  The statement's world expression is exactly the
else branch of `openChildMenu`. -/
theorem link_new_child_chainInv {w1 : World} {id sm : Nat}
    (hInv1 : ChainInv w1) (hchn : (w1 id).childMenu = none)
    (hatt1 : (w1 id).attached = true) (hsmatt1 : (w1 sm).attached = false)
    (hai1 : (w1 id).activeIndex ≠ -1) :
    ChainInv (openSubmenuW
      (Function.update
        (Function.update w1 id
          { w1 id with childMenu := some sm,
                       childIndex := (w1 id).activeIndex })
        sm
        { (Function.update w1 id
            { w1 id with childMenu := some sm,
                         childIndex := (w1 id).activeIndex }) sm
          with parentMenu := some id })
      sm) := by
  obtain ⟨hL1, hA1⟩ := hInv1
  have hsmid : sm ≠ id := by
    intro he
    rw [he, hatt1] at hsmatt1
    cases hsmatt1
  have hidsm : id ≠ sm := fun he => hsmid he.symm
  have hsmp : (w1 sm).parentMenu = none := by
    cases hq : (w1 sm).parentMenu with
    | none => rfl
    | some q =>
      have f := (hL1 sm).2.2 q hq
      have h2 := ((hL1 q).2.1 sm f).2.2
      rw [hsmatt1] at h2
      cases h2
  have hsmch : (w1 sm).childMenu = none := by
    cases hk : (w1 sm).childMenu with
    | none => rfl
    | some k =>
      have h2 := ((hL1 sm).2.1 k hk).2.1
      rw [hsmatt1] at h2
      cases h2
  have hsmci : (w1 sm).childIndex = -1 := (hL1 sm).1.mp hsmch
  set A : MenuState :=
    { w1 id with childMenu := some sm,
                 childIndex := (w1 id).activeIndex } with hAdef
  set W2 := Function.update w1 id A with hW2def
  set B : MenuState := { W2 sm with parentMenu := some id } with hBdef
  set W3 := Function.update W2 sm B with hW3def
  set W := openSubmenuW W3 sm with hWdef
  have hW2sm : W2 sm = w1 sm := Function.update_noteq hsmid _ _
  have hW2id : W2 id = A := Function.update_same _ _ _
  have rsm : W sm = { onUpdateRequest (W3 sm) with attached := true } :=
    openSubmenuW_at W3 sm
  have rW3sm : W3 sm = B := Function.update_same _ _ _
  have rid : W id = A := by
    rw [hWdef, openSubmenuW_frame hidsm, hW3def,
      Function.update_noteq hidsm, hW2id]
  have rother : ∀ j, j ≠ sm → j ≠ id → W j = w1 j := by
    intro j h1 h2
    rw [hWdef, openSubmenuW_frame h1, hW3def, Function.update_noteq h1,
      hW2def, Function.update_noteq h2]
  have esmc : (W sm).childMenu = none := by
    rw [rsm]
    show (onUpdateRequest (W3 sm)).childMenu = none
    rw [onUpdateRequest_childMenu, rW3sm, hBdef]
    show (W2 sm).childMenu = none
    rw [hW2sm]
    exact hsmch
  have esmi : (W sm).childIndex = -1 := by
    rw [rsm]
    show (onUpdateRequest (W3 sm)).childIndex = -1
    rw [onUpdateRequest_childIndex, rW3sm, hBdef]
    show (W2 sm).childIndex = -1
    rw [hW2sm]
    exact hsmci
  have esmp : (W sm).parentMenu = some id := by
    rw [rsm]
    show (onUpdateRequest (W3 sm)).parentMenu = some id
    rw [onUpdateRequest_parentMenu, rW3sm]
  have esma : (W sm).attached = true := by
    rw [rsm]
  constructor
  · intro j
    by_cases hjsm : j = sm
    · rw [hjsm]
      refine ⟨?_, ?_, ?_⟩
      · rw [esmc, esmi]
        simp
      · intro c2 hc2
        rw [esmc] at hc2
        cases hc2
      · intro q hq
        rw [esmp] at hq
        have hq2 : id = q := Option.some.inj hq
        rw [← hq2, rid]
    · by_cases hjid : j = id
      · rw [hjid, rid]
        refine ⟨?_, ?_, ?_⟩
        · constructor
          · intro hcc
            cases hcc
          · intro hci
            exfalso
            exact hai1 hci
        · intro c2 hc2
          have hc2b : sm = c2 := Option.some.inj hc2
          rw [← hc2b]
          refine ⟨esmp, hatt1, esma⟩
        · intro q hq
          have hq2 : (w1 id).parentMenu = some q := hq
          have f := (hL1 id).2.2 q hq2
          have hqsm : q ≠ sm := by
            intro he
            rw [he, hsmch] at f
            cases f
          have hqid : q ≠ id := by
            intro he
            rw [he, hchn] at f
            cases f
          rw [rother q hqsm hqid]
          exact f
      · rw [rother j hjsm hjid]
        refine ⟨(hL1 j).1, ?_, ?_⟩
        · intro r hr
          obtain ⟨f1, f2, f3⟩ := (hL1 j).2.1 r hr
          have hrsm : r ≠ sm := by
            intro he
            rw [he, hsmp] at f1
            cases f1
          by_cases hrid : r = id
          · rw [hrid, rid]
            rw [hrid] at f1 f3
            exact ⟨f1, f2, f3⟩
          · rw [rother r hrsm hrid]
            exact ⟨f1, f2, f3⟩
        · intro q hq
          have f := (hL1 j).2.2 q hq
          have hqid : q ≠ id := by
            intro he
            rw [he, hchn] at f
            cases f
          have hqsm : q ≠ sm := by
            intro he
            rw [he, hsmch] at f
            cases f
          rw [rother q hqsm hqid]
          exact f
  · obtain ⟨d, hd⟩ := hA1
    refine ⟨fun x => if x = sm then 0 else d x + 1, ?_⟩
    intro q r hqr
    by_cases hqsm : q = sm
    · rw [hqsm, esmc] at hqr
      cases hqr
    · by_cases hqid : q = id
      · rw [hqid, rid] at hqr
        have hr2 : sm = r := Option.some.inj hqr
        rw [hqid, ← hr2]
        dsimp only
        rw [if_pos rfl, if_neg hidsm]
        omega
      · rw [rother q hqsm hqid] at hqr
        have hrsm : r ≠ sm := by
          intro he
          have f1 := ((hL1 q).2.1 r hqr).1
          rw [he, hsmp] at f1
          cases f1
        dsimp only
        rw [if_neg hrsm, if_neg hqsm]
        have := hd q r hqr
        omega

theorem chainInv_openChildMenu (fuel : Nat) (w : World) (id : Nat)
    (hInv : ChainInv w) (hatt : (w id).attached = true)
    (hsm : ∀ sm, targetSubmenu (w id) = some sm → (w sm).attached = false) :
    ChainInv (openChildMenu fuel w id).1 := by
  unfold openChildMenu
  cases ht : targetSubmenu (w id) with
  | none => exact chainInv_closeChildMenu fuel w id hInv
  | some sm =>
    dsimp only
    by_cases heq : (w id).childMenu = some sm
    · rw [if_pos heq]
      exact hInv
    · rw [if_neg heq]
      dsimp only
      have hsmatt : (w sm).attached = false := hsm sm ht
      have hai : (w id).activeIndex ≠ -1 := by
        intro hi
        unfold targetSubmenu activeItemOf at ht
        rw [if_neg (by simp [hi])] at ht
        cases ht
      have hInv1 : ChainInv (closeChildMenu fuel w id).1 :=
        chainInv_closeChildMenu fuel w id hInv
      have hfacts : ((closeChildMenu fuel w id).1 id).childMenu = none ∧
          ((closeChildMenu fuel w id).1 id).activeIndex = (w id).activeIndex ∧
          ((closeChildMenu fuel w id).1 id).attached = (w id).attached ∧
          ((closeChildMenu fuel w id).1 sm).attached = false := by
        cases hm : (w id).childMenu with
        | none =>
          rw [closeChildMenu_none fuel hm]
          exact ⟨hm, rfl, rfl, hsmatt⟩
        | some c =>
          rw [closeChildMenu_some fuel hm]
          have hcid : c ≠ id := by
            intro he
            rw [he] at hm
            exact acyc_no_self_child hInv.2 hm
          have hnr : ¬ ChildReach (sever w id c) c id := by
            intro hr
            exact acyc_no_back_reach hInv.2 hm
              (childReach_mono (wshrink_linkSubset (wshrink_sever w id c)) hr)
          have hframe := closeMenu_frame fuel (sever w id c) c id
            (sever_parent_none w id c) hnr
          have hsmc : sm ≠ c := by
            intro he
            rw [← he] at hm
            exact heq hm
          have hsmid : sm ≠ id := by
            intro he
            rw [he, hatt] at hsmatt
            cases hsmatt
          refine ⟨?_, ?_, ?_, ?_⟩
          · rw [hframe, sever_at_id hcid]
          · rw [hframe, sever_at_id hcid]
          · rw [hframe, sever_at_id hcid]
          · apply StepShrink.keepAttFalse
              (wshrink_closeMenu fuel (sever w id c) c sm)
            rw [sever_frame hsmid hsmc]
            exact hsmatt
      obtain ⟨f1, f2, f3, f4⟩ := hfacts
      exact link_new_child_chainInv hInv1 f1 (by rw [f3]; exact hatt) f4
        (by rw [f2]; exact hai)

/-- C2: in every state satisfying the chain invariant (which contains
`childMenu = none ↔ childIndex = -1` and `childMenu = some c →
c.parentMenu = this`, together with the inverse link, attach
consistency, and acyclicity — all true of the initial all-closed
world), the three operations that link or unlink a child — the
internal child-open, the internal child-close, and close — preserve
the invariant, so no partial-link state is observable after any of
them completes.  Child-open assumes the menu is open and that the
target submenu is not already attached (the widget substrate's
`Widget.attach` precondition). -/
theorem chain_link_invariant :
    ∀ (fuel : Nat) (w : World) (id : Nat), ChainInv w →
      ChainInv (closeMenu fuel w id).1 ∧
      ChainInv (closeChildMenu fuel w id).1 ∧
      ((w id).attached = true →
        (∀ sm, targetSubmenu (w id) = some sm → (w sm).attached = false) →
        ChainInv (openChildMenu fuel w id).1) := by
  intro fuel w id hInv
  exact ⟨chainInv_closeMenu fuel w id hInv,
    chainInv_closeChildMenu fuel w id hInv,
    fun hatt hsm => chainInv_openChildMenu fuel w id hInv hatt hsm⟩

/-- An attached menu with no links (e.g. a just-opened root). -/
def openRootWorld : World := fun _ => { attached := true }

/-- C2 witness: the invariant is preserved on a concrete world. -/
theorem chain_link_invariant_witness :
    ChainInv (openChildMenu 1 openRootWorld 0).1 ∧
    ChainInv (closeMenu 1 openRootWorld 0).1 := by
  have hInv : ChainInv openRootWorld := by
    constructor
    · intro id
      refine ⟨Iff.intro (fun _ => rfl) (fun _ => rfl), ?_, ?_⟩
      · intro c hc
        cases hc
      · intro p hp
        cases hp
    · refine ⟨fun _ => 0, ?_⟩
      intro q r hqr
      cases hqr
  have h := chain_link_invariant 1 openRootWorld 0 hInv
  exact ⟨h.2.2 rfl (fun sm hsm => by cases hsm), h.1⟩

theorem activeInv_transportEq {m m' : MenuState}
    (h1 : m'.activeIndex = m.activeIndex) (h2 : m'.items = m.items)
    (h : ActiveInv m) : ActiveInv m' := by
  unfold ActiveInv at h ⊢
  rw [h1, h2]
  exact h

theorem aiAll_update {w : World} (id : Nat) (m : MenuState)
    (h : ∀ j, ActiveInv (w j)) (hm : ActiveInv m) :
    ∀ j, ActiveInv ((Function.update w id m) j) := by
  intro j
  by_cases hj : j = id
  · rw [hj, Function.update_same]
    exact hm
  · rw [Function.update_noteq hj]
    exact h j

theorem stepShrink_activeInv {m m' : MenuState} (hs : StepShrink m m')
    (h : ActiveInv m) : ActiveInv m' := by
  rcases hs.active with ha | ha
  · exact Or.inl ha
  · exact activeInv_transportEq ha hs.items h

theorem aiAll_wshrink {w w' : World} (hs : WStepShrink w w')
    (h : ∀ j, ActiveInv (w j)) : ∀ j, ActiveInv (w' j) :=
  fun j => stepShrink_activeInv (hs j) (h j)

theorem activeInv_activateFirst (m : MenuState) :
    ActiveInv (activateFirstSelectable m) := by
  unfold activateFirstSelectable
  split <;> exact setActiveIndex_activeInv _ _

theorem activeInv_activateNext (m : MenuState) :
    ActiveInv (activateNextSelectable m) := by
  unfold activateNextSelectable
  split <;> exact setActiveIndex_activeInv _ _

theorem activeInv_activatePrev (m : MenuState) :
    ActiveInv (activatePrevSelectable m) := by
  unfold activatePrevSelectable
  split <;> exact setActiveIndex_activeInv _ _

theorem activeInv_mnemonic (m : MenuState) (ch : Char) :
    ActiveInv (activateNextMnemonic m ch) := by
  unfold activateNextMnemonic
  split <;> exact setActiveIndex_activeInv _ _

theorem activeInv_cancelTimers {m : MenuState} (h : ActiveInv m) :
    ActiveInv (cancelTimersStep m) :=
  activeInv_transportEq rfl rfl h

theorem activeInv_startOpenTimer {m : MenuState} (h : ActiveInv m) :
    ActiveInv (startOpenTimer m) := by
  unfold startOpenTimer
  split
  · exact activeInv_transportEq rfl rfl h
  · exact h

theorem activeInv_startCloseTimer {m : MenuState} (h : ActiveInv m) :
    ActiveInv (startCloseTimer m) := by
  unfold startCloseTimer
  split
  · exact activeInv_transportEq rfl rfl h
  · exact h

theorem activeInv_onUpdateRequest {m : MenuState} (h : ActiveInv m) :
    ActiveInv (onUpdateRequest m) :=
  activeInv_transportEq (onUpdateRequest_activeIndex m)
    (onUpdateRequest_items m) h

theorem aiAll_closeMenu (fuel : Nat) (w : World) (id : Nat)
    (h : ∀ j, ActiveInv (w j)) : ∀ j, ActiveInv ((closeMenu fuel w id).1 j) :=
  aiAll_wshrink (wshrink_closeMenu fuel w id) h

theorem aiAll_closeChildMenu (fuel : Nat) (w : World) (id : Nat)
    (h : ∀ j, ActiveInv (w j)) :
    ∀ j, ActiveInv ((closeChildMenu fuel w id).1 j) :=
  aiAll_wshrink (wshrink_closeChildMenu fuel w id) h

theorem aiAll_closeIfAttached (fuel : Nat) (w : World) (id : Nat)
    (h : ∀ j, ActiveInv (w j)) :
    ∀ j, ActiveInv ((closeIfAttached fuel w id).1 j) :=
  aiAll_wshrink (wshrink_closeIfAttached fuel w id) h

theorem aiAll_update_keep {w : World} (id : Nat) (m : MenuState)
    (h : ∀ j, ActiveInv (w j))
    (h1 : m.activeIndex = (w id).activeIndex) (h2 : m.items = (w id).items) :
    ∀ j, ActiveInv ((Function.update w id m) j) :=
  aiAll_update id m h (activeInv_transportEq h1 h2 (h id))

theorem aiAll_openSubmenuW (w : World) (sm : Nat)
    (h : ∀ j, ActiveInv (w j)) : ∀ j, ActiveInv ((openSubmenuW w sm) j) := by
  unfold openSubmenuW
  have h1 := aiAll_update sm (onUpdateRequest (w sm)) h
    (activeInv_onUpdateRequest (h sm))
  exact aiAll_update_keep sm _ h1 rfl rfl

theorem aiAll_openChildMenu (fuel : Nat) (w : World) (id : Nat)
    (h : ∀ j, ActiveInv (w j)) :
    ∀ j, ActiveInv ((openChildMenu fuel w id).1 j) := by
  unfold openChildMenu
  cases targetSubmenu (w id) with
  | none => exact aiAll_closeChildMenu fuel w id h
  | some sm =>
    dsimp only
    split
    · exact h
    · dsimp only
      have h1 := aiAll_closeChildMenu fuel w id h
      refine aiAll_openSubmenuW _ sm ?_
      refine aiAll_update_keep sm _ ?_ rfl rfl
      exact aiAll_update_keep id _ h1 rfl rfl

theorem aiAll_triggerItem (fuel : Nat) (w : World) (id : Nat)
    (item : MenuItem) (h : ∀ j, ActiveInv (w j)) :
    ∀ j, ActiveInv ((triggerItem fuel w id item).1 j) := by
  unfold triggerItem
  dsimp only
  exact aiAll_closeMenu fuel w _ h

theorem aiAll_insertItemW (fuel : Nat) (w : World) (id : Nat) (index : Int)
    (item : MenuItem) (h : ∀ j, ActiveInv (w j)) :
    ∀ j, ActiveInv ((insertItemW fuel w id index item).1 j) := by
  unfold insertItemW
  dsimp only
  exact aiAll_update id _ (aiAll_closeIfAttached fuel w id h) (Or.inl rfl)

theorem aiAll_removeItemW (fuel : Nat) (w : World) (id : Nat) (index : Int)
    (h : ∀ j, ActiveInv (w j)) :
    ∀ j, ActiveInv ((removeItemW fuel w id index).1 j) := by
  unfold removeItemW
  split
  · exact h
  · dsimp only
    exact aiAll_update id _ (aiAll_closeIfAttached fuel w id h) (Or.inl rfl)

theorem aiAll_clearItemsW (fuel : Nat) (w : World) (id : Nat)
    (h : ∀ j, ActiveInv (w j)) :
    ∀ j, ActiveInv ((clearItemsW fuel w id).1 j) := by
  unfold clearItemsW
  dsimp only
  exact aiAll_update id _ (aiAll_closeIfAttached fuel w id h) (Or.inl rfl)

theorem aiAll_openMenuW (w : World) (id : Nat) (h : ∀ j, ActiveInv (w j)) :
    ∀ j, ActiveInv ((openMenuW w id) j) := by
  unfold openMenuW
  split
  · exact h
  · refine aiAll_update_keep id _ ?_ rfl rfl
    exact aiAll_update id _ h (activeInv_onUpdateRequest (h id))

theorem aiAll_fireOpenTimer (fuel : Nat) (w : World) (id : Nat)
    (h : ∀ j, ActiveInv (w j)) :
    ∀ j, ActiveInv ((fireOpenTimer fuel w id).1 j) := by
  unfold fireOpenTimer
  split
  · exact aiAll_openChildMenu fuel _ id (aiAll_update_keep id _ h rfl rfl)
  · exact h

theorem aiAll_fireCloseTimer (fuel : Nat) (w : World) (id : Nat)
    (h : ∀ j, ActiveInv (w j)) :
    ∀ j, ActiveInv ((fireCloseTimer fuel w id).1 j) := by
  unfold fireCloseTimer
  split
  · exact aiAll_closeChildMenu fuel _ id (aiAll_update_keep id _ h rfl rfl)
  · exact h

theorem aiAll_evtMouseUp (fuel : Nat) (w : World) (id : Nat) (button : Nat)
    (hit : Int) (h : ∀ j, ActiveInv (w j)) :
    ∀ j, ActiveInv ((evtMouseUp fuel w id button hit).1 j) := by
  unfold evtMouseUp
  split
  · exact h
  · dsimp only
    have h1 := aiAll_update id _ h (setActiveIndex_activeInv (w id) hit)
    split
    · exact h1
    · have h2 := aiAll_update_keep id (cancelTimersStep _) h1 rfl rfl
      split
      · exact aiAll_openChildMenu fuel _ id h2
      · exact aiAll_triggerItem fuel _ id _ h2

theorem aiAll_evtKeyDown (fuel : Nat) (w : World) (id : Nat) (kc : Nat)
    (h : ∀ j, ActiveInv (w j)) :
    ∀ j, ActiveInv ((evtKeyDown fuel w id kc).1 j) := by
  unfold evtKeyDown
  split
  · exact h
  · split
    · dsimp only
      split
      · exact h
      · have h1 := aiAll_update_keep id (cancelTimersStep _) h rfl rfl
        split
        · exact aiAll_triggerItem fuel _ id _ h1
        · have h2 := aiAll_openChildMenu fuel _ id h1
          split
          · next c _ =>
            exact aiAll_update c _ h2 (activeInv_activateFirst _)
          · exact h2
    · split
      · exact aiAll_closeMenu fuel w id h
      · split
        · split
          · exact aiAll_closeMenu fuel w id h
          · exact h
        · split
          · exact aiAll_update id _ h (activeInv_activatePrev _)
          · split
            · dsimp only
              split
              · exact h
              · split
                · exact h
                · have h1 := aiAll_update_keep id (cancelTimersStep _) h rfl rfl
                  have h2 := aiAll_openChildMenu fuel _ id h1
                  split
                  · next c _ =>
                    exact aiAll_update c _ h2 (activeInv_activateFirst _)
                  · exact h2
            · split
              · exact aiAll_update id _ h (activeInv_activateNext _)
              · exact h

theorem aiAll_evtKeyPress (w : World) (id : Nat) (ch : Char)
    (h : ∀ j, ActiveInv (w j)) : ∀ j, ActiveInv ((evtKeyPress w id ch) j) := by
  unfold evtKeyPress
  split
  · exact h
  · exact aiAll_update id _ h (activeInv_mnemonic _ ch)

theorem aiAll_syncAncestors (fuel : Nat) :
    ∀ (w : World) (opt : Option Nat), (∀ j, ActiveInv (w j)) →
      ∀ j, ActiveInv ((syncAncestors fuel w opt) j) := by
  induction fuel with
  | zero => intro w opt h; cases opt <;> exact h
  | succ fuel ih =>
    intro w opt h
    cases opt with
    | none => exact h
    | some a =>
      unfold syncAncestors
      exact ih _ _ (aiAll_update a _ h (setActiveIndex_activeInv _ _))

theorem aiAll_mouseMoveTimerPhase (w : World) (id : Nat)
    (h : ∀ j, ActiveInv (w j)) :
    ∀ j, ActiveInv ((mouseMoveTimerPhase w id) j) := by
  unfold mouseMoveTimerPhase
  split
  · have h3 := aiAll_update id _ h (activeInv_startCloseTimer (h id))
    exact aiAll_update_keep id (cancelOpenTimerStep _) h3 rfl rfl
  · exact aiAll_update_keep id (cancelOpenTimerStep _) h rfl rfl

theorem aiAll_mouseMoveOpenPhase (w : World) (id : Nat)
    (h : ∀ j, ActiveInv (w j)) :
    ∀ j, ActiveInv ((mouseMoveOpenPhase w id) j) := by
  unfold mouseMoveOpenPhase
  cases activeItemOf (w id) with
  | none => exact h
  | some item =>
    dsimp only
    split
    · exact aiAll_update id _ h (activeInv_startOpenTimer (h id))
    · exact h

theorem aiAll_evtMouseMove (fuel : Nat) (w : World) (id : Nat) (hit : Int)
    (h : ∀ j, ActiveInv (w j)) :
    ∀ j, ActiveInv ((evtMouseMove fuel w id hit) j) := by
  unfold evtMouseMove
  split
  · exact h
  · dsimp only
    have h1 := aiAll_update id _ h (setActiveIndex_activeInv (w id) hit)
    have h2 := aiAll_syncAncestors fuel
      (Function.update w id (setActiveIndex (w id) hit))
      ((Function.update w id (setActiveIndex (w id) hit) id).parentMenu) h1
    split
    · exact aiAll_update_keep id (cancelTimersStep _) h2 rfl rfl
    · exact aiAll_mouseMoveOpenPhase _ id (aiAll_mouseMoveTimerPhase _ id h2)

theorem aiAll_evtMouseLeave (w : World) (id : Nat) (overChild : Bool)
    (h : ∀ j, ActiveInv (w j)) :
    ∀ j, ActiveInv ((evtMouseLeave w id overChild) j) := by
  unfold evtMouseLeave
  dsimp only
  have h1 := aiAll_update_keep (w := w) id (cancelOpenTimerStep _) h rfl rfl
  split
  · exact aiAll_update id _ h1 (setActiveIndex_activeInv _ _)
  · split
    · exact aiAll_update_keep id (cancelCloseTimerStep _) h1 rfl rfl
    · have h2 := aiAll_update id
        (setActiveIndex ((Function.update w id
          (cancelOpenTimerStep (w id))) id) (-1)) h1
        (setActiveIndex_activeInv _ _)
      exact aiAll_update id _ h2 (activeInv_startCloseTimer (h2 id))

theorem aiAll_evtMouseDown (fuel : Nat) (w : World) (id : Nat)
    (hits : Nat → Bool) (h : ∀ j, ActiveInv (w j)) :
    ∀ j, ActiveInv ((evtMouseDown fuel w id hits).1 j) := by
  unfold evtMouseDown
  split
  · exact h
  · split
    · exact h
    · exact aiAll_closeMenu fuel w id h

/-- One externally triggerable operation of the menu state machine
(public API call, DOM event dispatch, or timer callback), with
hit-test oracle results as parameters. -/
inductive MenuOp where
  | setActive (id : Nat) (v : Int)
  | insert (id : Nat) (index : Int) (item : MenuItem)
  | remove (id : Nat) (index : Int)
  | clear (id : Nat)
  | openRoot (id : Nat)
  | closeOp (id : Nat)
  | openChild (id : Nat)
  | closeChild (id : Nat)
  | keyDown (id : Nat) (kc : Nat)
  | keyPress (id : Nat) (c : Char)
  | mouseUp (id : Nat) (button : Nat) (hit : Int)
  | mouseMove (id : Nat) (hit : Int)
  | mouseLeave (id : Nat) (overChild : Bool)
  | mouseDown (id : Nat) (hits : Nat → Bool)
  | fireOpen (id : Nat)
  | fireClose (id : Nat)

def applyOp (fuel : Nat) (w : World) : MenuOp → World × List Event
  | MenuOp.setActive id v =>
    (Function.update w id (setActiveIndex (w id) v), [])
  | MenuOp.insert id index item => insertItemW fuel w id index item
  | MenuOp.remove id index => removeItemW fuel w id index
  | MenuOp.clear id => clearItemsW fuel w id
  | MenuOp.openRoot id => (openMenuW w id, [])
  | MenuOp.closeOp id => closeMenu fuel w id
  | MenuOp.openChild id => openChildMenu fuel w id
  | MenuOp.closeChild id => closeChildMenu fuel w id
  | MenuOp.keyDown id kc => evtKeyDown fuel w id kc
  | MenuOp.keyPress id c => (evtKeyPress w id c, [])
  | MenuOp.mouseUp id b ht => evtMouseUp fuel w id b ht
  | MenuOp.mouseMove id ht => (evtMouseMove fuel w id ht, [])
  | MenuOp.mouseLeave id oc => (evtMouseLeave w id oc, [])
  | MenuOp.mouseDown id hits => evtMouseDown fuel w id hits
  | MenuOp.fireOpen id => fireOpenTimer fuel w id
  | MenuOp.fireClose id => fireCloseTimer fuel w id

/-- Run a sequence of operations (every prefix of the sequence is
itself such a run, so an invariant proved for all `ops` holds after
each operation). -/
def applyOps (fuel : Nat) : World → List MenuOp → World
  | w, [] => w
  | w, op :: ops => applyOps fuel (applyOp fuel w op).1 ops

theorem aiAll_applyOp (fuel : Nat) (w : World) (op : MenuOp)
    (h : ∀ j, ActiveInv (w j)) : ∀ j, ActiveInv ((applyOp fuel w op).1 j) := by
  cases op with
  | setActive id v => exact aiAll_update id _ h (setActiveIndex_activeInv _ _)
  | insert id index item => exact aiAll_insertItemW fuel w id index item h
  | remove id index => exact aiAll_removeItemW fuel w id index h
  | clear id => exact aiAll_clearItemsW fuel w id h
  | openRoot id => exact aiAll_openMenuW w id h
  | closeOp id => exact aiAll_closeMenu fuel w id h
  | openChild id => exact aiAll_openChildMenu fuel w id h
  | closeChild id => exact aiAll_closeChildMenu fuel w id h
  | keyDown id kc => exact aiAll_evtKeyDown fuel w id kc h
  | keyPress id c => exact aiAll_evtKeyPress w id c h
  | mouseUp id b ht => exact aiAll_evtMouseUp fuel w id b ht h
  | mouseMove id ht => exact aiAll_evtMouseMove fuel w id ht h
  | mouseLeave id oc => exact aiAll_evtMouseLeave w id oc h
  | mouseDown id hits => exact aiAll_evtMouseDown fuel w id hits h
  | fireOpen id => exact aiAll_fireOpenTimer fuel w id h
  | fireClose id => exact aiAll_fireCloseTimer fuel w id h

/-- C9: the `activeIndex` setter coerces any out-of-range index or
index of a non-selectable item to -1 and always leaves a state
satisfying the selection invariant (first two conjuncts); and in
every state reachable through any sequence of the modelled menu
operations from an invariant-satisfying world (such as the initial
all-closed one), `activeIndex` is -1 or designates an in-range
selectable item. -/
theorem active_index_selectable_inv :
    (∀ (m : MenuState) (v : Int),
      (v < 0 ∨ (m.items.length : Int) ≤ v ∨
        isSelectable (m.items.getD v.toNat default) = false) →
      (setActiveIndex m v).activeIndex = -1) ∧
    (∀ (m : MenuState) (v : Int), ActiveInv (setActiveIndex m v)) ∧
    (∀ (fuel : Nat) (ops : List MenuOp) (w : World),
      (∀ j, ActiveInv (w j)) → ∀ j, ActiveInv ((applyOps fuel w ops) j)) := by
  refine ⟨?_, setActiveIndex_activeInv, ?_⟩
  · intro m v hv
    rw [setActiveIndex_activeIndex]
    rcases coerceIndex_spec m v with h | h
    · exact h
    · rcases hv with h1 | h1 | h1
      · omega
      · omega
      · rw [h.2.2.2] at h1
        cases h1
  · intro fuel ops
    induction ops with
    | nil => intro w h j; exact h j
    | cons op ops ih => intro w h; exact ih _ (aiAll_applyOp fuel w op h)

/-- C9 witness: setting an out-of-range index on a concrete menu
coerces to -1, and a concrete operation sequence preserves the
invariant. -/
theorem active_index_selectable_inv_witness :
    (setActiveIndex { items := [itemA], nodes := [{}] } 5).activeIndex = -1 ∧
    ActiveInv ((applyOps 1 (fun _ => default) [MenuOp.setActive 0 0]) 0) := by
  constructor
  · exact active_index_selectable_inv.1 { items := [itemA], nodes := [{}] } 5
      (by decide)
  · exact active_index_selectable_inv.2.2 1 [MenuOp.setActive 0 0]
      (fun _ => default) (fun j => Or.inl rfl) 0
